import Mathlib

/-!
Tree checksum path filter of `pkg/git_repo`.

A shallow embedding of `pkg/git_repo/ls_tree_path_filter.go` and of the tree
checksum engine of `pkg/git_repo/base.go`, followed by theorems about them.

Go strings are modelled as lists of characters.  Library functions that the
package calls (`strings`, `path/filepath`, `doublestar`, `go-git`) are either
modelled after their documentation or taken as parameters; each definition
says which.
-/

namespace GitRepo

/-- Go `string`, as the list of its characters. -/
abbrev Str := List Char

/-- The value of `os.PathSeparator` (Unix). -/
def PathSeparator : Char := '/'

/-! ## `strings` -/

/-- Go `strings.Split(s, string(sep))` for a one-character separator: the
pieces of `s` between occurrences of `sep`; never the empty list. -/
def Split (sep : Char) : Str → List Str
  | [] => [[]]
  | c :: cs =>
    if c = sep then [] :: Split sep cs
    else
      match Split sep cs with
      | [] => [[c]]
      | p :: ps => (c :: p) :: ps

/-- Go `strings.HasPrefix(s, pre)`. -/
def HasPrefix : Str → Str → Bool
  | _, [] => true
  | [], _ :: _ => false
  | c :: cs, p :: ps => c == p && HasPrefix cs ps

/-- Go `strings.Contains(s, sub)`. -/
def Contains : Str → Str → Bool
  | [], sub => sub.isEmpty
  | c :: cs, sub => HasPrefix (c :: cs) sub || Contains cs sub

/-- Removes the trailing characters of a reversed string that lie in `cutset`. -/
def trimLeading (cutset : Str) : Str → Str
  | [] => []
  | c :: cs => if cutset.elem c then trimLeading cutset cs else c :: cs

/-- Go `strings.TrimRight(s, cutset)`: `s` without its trailing characters
that belong to the character set `cutset`. -/
def TrimRight (s cutset : Str) : Str :=
  (trimLeading cutset s.reverse).reverse

/-- Go `strings.Join(elems, string(sep))`. -/
def joinSep (sep : Char) : List Str → Str
  | [] => []
  | [e] => e
  | e :: e2 :: es => e ++ sep :: joinSep sep (e2 :: es)

/-! ## `path/filepath` (Unix) -/

/-- One step of `filepath.Clean` on the stack of kept components (top first):
empty and `.` components are dropped, `..` removes the component before it
unless there is none or it is itself `..`; a `..` that would climb above the
root of a rooted path is dropped. -/
def cleanStep (rooted : Bool) (stack : List Str) (comp : Str) : List Str :=
  if comp = [] ∨ comp = ['.'] then stack
  else if comp = ['.', '.'] then
    match stack with
    | [] => if rooted then [] else [comp]
    | top :: below => if top = ['.', '.'] then comp :: top :: below else below
  else comp :: stack

/-- Go `filepath.Clean(path)`: the shortest path name equivalent to `path` by
purely lexical processing; the empty result is `.`. -/
def Clean (path : Str) : Str :=
  let rooted := HasPrefix path [PathSeparator]
  let kept := ((Split PathSeparator path).foldl (cleanStep rooted) []).reverse
  let body := joinSep PathSeparator kept
  if rooted then PathSeparator :: body
  else if body = [] then ['.'] else body

/-- Go `filepath.Join(elem...)`: leading empty elements are ignored, the rest
is joined with the separator and cleaned; no non-empty element gives `""`. -/
def Join : List Str → Str
  | [] => []
  | e :: es => if e = [] then Join es else Clean (joinSep PathSeparator (e :: es))

/-! ## `doublestar` -/

/-- The result of `doublestar.PathMatch(pattern, name)`: `some b` for
`(b, nil)`, `none` for `ErrBadPattern`, on which every caller in the package
panics. -/
abbrev Matcher := Str → Str → Option Bool

/-- Matching of one path component against one pattern component, for
patterns built from literal characters, `?` and `*`. -/
def matchComponent : Str → Str → Bool
  | [], n => n.isEmpty
  | p :: ps, n =>
    if p = '*' then n.tails.any (fun t => matchComponent ps t)
    else
      match n with
      | [] => false
      | c :: cs => (p = '?' ∨ p = c) && matchComponent ps cs

/-- Component-wise matching: a `**` component matches any number of name
components, every other component matches exactly one. -/
def doMatching : List Str → List Str → Bool
  | [], ns => ns.isEmpty
  | p :: ps, ns =>
    if p = ['*', '*'] then
      ps.isEmpty || ns.tails.any (fun t => !t.isEmpty && doMatching ps t)
    else
      match ns with
      | [] => false
      | n :: rest => matchComponent p n && doMatching ps rest

/-- Modelled from the spec: `doublestar.PathMatch` belongs to a library that
is not part of the sources.  This is the fragment of doublestar globs the spec
describes (`**` matches zero or more path components; `*` and `?` within one
component), on patterns without character classes, alternatives or escapes;
a pattern that uses one of those is outside the fragment and yields `none`.
The theorems below hold for every matcher; this one serves as an instance. -/
def PathMatch : Matcher := fun pattern name =>
  if pattern.any (fun c => c = '[' ∨ c = ']' ∨ c = '{' ∨ c = '}' ∨ c = '\\') then none
  else some (doMatching (Split PathSeparator pattern) (Split PathSeparator name))

/-! ## `ls_tree_path_filter.go` -/

/-- The struct `true_git.PathFilter`. -/
structure PathFilter where
  BasePath : Str
  IncludePaths : List Str
  ExcludePaths : List Str
  deriving DecidableEq, Repr

/-- The struct `LsTreePathFilter`. -/
structure LsTreePathFilter where
  toPathFilter : PathFilter
  IncludePathsRelativeToCurrentTree : List Str
  ExcludePathsRelativeToCurrentTree : List Str
  deriving DecidableEq, Repr

/-- The three cut sets of `formatGlobs`:
`filepath.Join("/", "**", "*")`, `filepath.Join("/", "**")`, `filepath.Join("/", "*")`. -/
def formatTrims : List Str :=
  [Join [[PathSeparator], ['*', '*'], ['*']],
   Join [[PathSeparator], ['*', '*']],
   Join [[PathSeparator], ['*']]]

/-- The body of the outer loop of `formatGlobs` for one glob: the inner loop
applies `strings.TrimRight(resGlob, trim)` for each trim in turn. -/
def formatGlob (glob : Str) : Str :=
  formatTrims.foldl (fun resGlob trim => TrimRight resGlob trim) glob

/-- The loop of `formatGlobs`, with `resGlobs` as accumulator. -/
def formatGlobsLoop : List Str → List Str → List Str
  | [], resGlobs => resGlobs
  | glob :: rest, resGlobs =>
    let resGlob := formatGlob glob
    if resGlob ≠ [] then formatGlobsLoop rest (resGlobs ++ [resGlob])
    else formatGlobsLoop rest resGlobs

/-- The function `formatGlobs`. -/
def formatGlobs (globs : List Str) : List Str := formatGlobsLoop globs []

/-- The function `NewLsTreePathFilter`. -/
def NewLsTreePathFilter (basePath : Str) (includePaths excludePaths : List Str) :
    LsTreePathFilter :=
  let formattedIncludePaths := formatGlobs includePaths
  let formattedExcludePaths := formatGlobs excludePaths
  { toPathFilter :=
      { BasePath := basePath
        IncludePaths := formattedIncludePaths
        ExcludePaths := formattedExcludePaths }
    IncludePathsRelativeToCurrentTree := formattedIncludePaths
    ExcludePathsRelativeToCurrentTree := formattedExcludePaths }

/-- The method `ShouldNotWalkThroughTree`. -/
def ShouldNotWalkThroughTree (f : LsTreePathFilter) : Bool :=
  f.IncludePathsRelativeToCurrentTree.length == 0 &&
    f.ExcludePathsRelativeToCurrentTree.length == 0

/-- The first element `parts[0]` of a split glob. -/
def firstPart (glob : Str) : Str := (Split PathSeparator glob).headD []

/-- The number of parts `len(parts)` of a split glob. -/
def partCount (glob : Str) : Nat := (Split PathSeparator glob).length

/-- The first loop of `CheckEntry`, over the include patterns, from the state
`(isValidEntry, shouldGoInsideEntry)`; `none` is the panic on a bad pattern. -/
def checkIncludes (pm : Matcher) (entryName : Str) :
    List Str → Bool × Bool → Option (Bool × Bool)
  | [], st => some st
  | includePath :: rest, (isValidEntry, shouldGoInsideEntry) =>
    match pm (firstPart includePath) entryName with
    | none => none
    | some isMatched =>
      if isMatched then
        if partCount includePath > 1 then some (true, true)
        else checkIncludes pm entryName rest (true, shouldGoInsideEntry)
      else checkIncludes pm entryName rest (isValidEntry, shouldGoInsideEntry)

/-- The second loop of `CheckEntry`, over the exclude patterns. -/
def checkExcludes (pm : Matcher) (entryName : Str) :
    List Str → Bool × Bool → Option (Bool × Bool)
  | [], st => some st
  | excludePath :: rest, (isValidEntry, shouldGoInsideEntry) =>
    match pm (firstPart excludePath) entryName with
    | none => none
    | some isMatched =>
      if isMatched then
        if partCount excludePath > 1 then checkExcludes pm entryName rest (true, true)
        else some (false, false)
      else checkExcludes pm entryName rest (isValidEntry, shouldGoInsideEntry)

/-- The method `CheckEntry`: `some (isValidEntry, shouldGoInsideEntry)`, or
`none` when a pattern makes the matcher fail and the method panics. -/
def CheckEntry (pm : Matcher) (f : LsTreePathFilter) (entryName : Str) :
    Option (Bool × Bool) :=
  match checkIncludes pm entryName f.IncludePathsRelativeToCurrentTree (false, false) with
  | none => none
  | some st => checkExcludes pm entryName f.ExcludePathsRelativeToCurrentTree st

/-- The loop of `shiftGlobsArray`, with `resGlobs` as accumulator; `none` is
the panic on a bad pattern. -/
def shiftGlobsLoop (pm : Matcher) (entryName : Str) :
    List Str → List Str → Option (List Str)
  | [], resGlobs => some resGlobs
  | glob :: rest, resGlobs =>
    match pm (firstPart glob) entryName with
    | none => none
    | some isMatched =>
      if !isMatched then shiftGlobsLoop pm entryName rest resGlobs
      else if Contains (firstPart glob) ['*', '*'] then
        shiftGlobsLoop pm entryName rest (resGlobs ++ [glob])
      else if partCount glob > 1 then
        shiftGlobsLoop pm entryName rest
          (resGlobs ++ [Join ((Split PathSeparator glob).drop 1)])
      else shiftGlobsLoop pm entryName rest resGlobs

/-- The function `shiftGlobsArray`. -/
def shiftGlobsArray (pm : Matcher) (entryName : Str) (globs : List Str) :
    Option (List Str) :=
  shiftGlobsLoop pm entryName globs []

/-- The method `WithoutEntryInPaths`.  The callback `ff` closes over the
filter and over whatever else it updates (`σ`); it returns its error value
`ε` with the new state, or `none` when it panics.  A panic, in the shifts or
in `ff`, leaves the method before the old paths are put back. -/
def WithoutEntryInPaths {σ ε : Type} (pm : Matcher) (entryName : Str)
    (ff : LsTreePathFilter × σ → Option (ε × LsTreePathFilter × σ))
    (st : LsTreePathFilter × σ) : Option (ε × LsTreePathFilter × σ) :=
  let f := st.1
  let oldIncludePathsRelativeToCurrentTree := f.IncludePathsRelativeToCurrentTree
  let oldExcludePathsRelativeToCurrentTree := f.ExcludePathsRelativeToCurrentTree
  match shiftGlobsArray pm entryName f.IncludePathsRelativeToCurrentTree with
  | none => none
  | some inc =>
    let f1 := { f with IncludePathsRelativeToCurrentTree := inc }
    match shiftGlobsArray pm entryName f1.ExcludePathsRelativeToCurrentTree with
    | none => none
    | some exc =>
      let f2 := { f1 with ExcludePathsRelativeToCurrentTree := exc }
      match ff (f2, st.2) with
      | none => none
      | some (err, f3, s) =>
        let f4 := { f3 with
          IncludePathsRelativeToCurrentTree := oldIncludePathsRelativeToCurrentTree }
        let f5 := { f4 with
          ExcludePathsRelativeToCurrentTree := oldExcludePathsRelativeToCurrentTree }
        some (err, f5, s)

/-! ## The object model read by the tree engine (`go-git`) -/

/-- Go `error` values. -/
abbrev Err := String

instance {ε α : Type} [DecidableEq ε] [DecidableEq α] : DecidableEq (Except ε α)
  | .error a, .error b => if h : a = b then isTrue (by rw [h]) else isFalse (by simp [h])
  | .ok a, .ok b => if h : a = b then isTrue (by rw [h]) else isFalse (by simp [h])
  | .error _, .ok _ => isFalse (by simp)
  | .ok _, .error _ => isFalse (by simp)

/-- The type `plumbing.Hash`: twenty bytes. -/
structure Hash where
  bytes : List (Fin 256)
  size : bytes.length = 20
  deriving DecidableEq

/-- The lower-case hexadecimal digit of a value below sixteen. -/
def hexDigit (n : Nat) : Char :=
  ['0', '1', '2', '3', '4', '5', '6', '7', '8', '9', 'a', 'b', 'c', 'd', 'e', 'f'].getD n '0'

/-- Go `hex.EncodeToString`. -/
def hexEncode : List (Fin 256) → Str
  | [] => []
  | b :: bs => hexDigit (b.val / 16) :: hexDigit (b.val % 16) :: hexEncode bs

/-- The method `plumbing.Hash.String`. -/
def Hash.String (h : Hash) : Str := hexEncode h.bytes

/-- The type `filemode.FileMode`, by its named values. -/
inductive FileMode where
  | Empty | Dir | Regular | Deprecated | Executable | Symlink | Submodule
  deriving DecidableEq, Repr

/-- The struct `object.TreeEntry`. -/
structure TreeEntry where
  Name : Str
  Mode : FileMode
  Hash : Hash
  deriving DecidableEq

mutual
/-- A tree object together with the repository it is read from, as the walker
sees them: the entries in the order of the tree, `findEntry path` for
`tree.FindEntry(path)`, `subtree name` for `tree.Tree(name)`, and
`submodule path` for the tree that
`submoduleRepositoryAndTree(repository, path)` returns with the submodule's
repository. -/
inductive Tree where
  | mk (Entries : List TreeEntry) (findEntry : Str → Except Err TreeEntry)
      (subtree : Str → TreeResult) (submodule : Str → TreeResult)
/-- The outcome `(tree, err)` of a lookup that yields a tree. -/
inductive TreeResult where
  | error (err : Err)
  | ok (tree : Tree)
end

/-- The field `tree.Entries`. -/
def Tree.Entries : Tree → List TreeEntry
  | .mk entries _ _ _ => entries

/-- The method `tree.FindEntry`. -/
def Tree.FindEntry : Tree → Str → Except Err TreeEntry
  | .mk _ findEntry _ _ => findEntry

/-- The method `tree.Tree`. -/
def Tree.subtree : Tree → Str → TreeResult
  | .mk _ _ subtree _ => subtree

/-- The function `submoduleRepositoryAndTree`, for the repository of the tree. -/
def Tree.submodule : Tree → Str → TreeResult
  | .mk _ _ _ submodule => submodule

/-- The struct `object.Commit`: its id and the outcome of `commit.Tree()`. -/
structure Commit where
  Hash : Hash
  Tree : TreeResult

/-- The part of `git.Repository` that `LsTreeChecksum` reads: the hash of the
reference `repository.Head()` and `repository.CommitObject`. -/
structure Repository where
  Head : Except Err Hash
  CommitObject : Hash → Except Err Commit

/-! ## The tree engine of `base.go` -/

/-- What the walk updates: the path filter behind the pointer `pathFilter`
and the bytes written to the hash `h` so far. -/
abbrev Walk := LsTreePathFilter × Str

/-- A `for _, entry := range entries` loop whose body either panics (`none`),
returns an error from the enclosing function, or goes on to the next entry. -/
def forEntries (body : TreeEntry → Walk → Option (Option Err × Walk)) :
    List TreeEntry → Walk → Option (Option Err × Walk)
  | [], w => some (none, w)
  | entry :: rest, w =>
    match body entry w with
    | none => none
    | some (some err, w1) => some (some err, w1)
    | some (none, w1) => forEntries body rest w1

/-- The `else` branch of `lsTreeChecksum` for an entry to go inside: the error
of the lookup of the inner tree is returned, otherwise the recursive call
`ff` runs under `WithoutEntryInPaths`. -/
def descendInto (pm : Matcher) (entryName : Str) (looked : TreeResult)
    (ff : Walk → Option (Option Err × Walk)) (w : Walk) : Option (Option Err × Walk) :=
  match looked with
  | .error err => some (some err, w)
  | .ok _ => WithoutEntryInPaths pm entryName ff w

/-- The three-way decision of `lsTreeChecksum` on a directory or submodule
entry, after `CheckEntry`: skip the entry, write its hash, or go inside with
`descend` (the lookup of the inner tree and the recursive call). -/
def checkedEntry (pm : Matcher) (entry : TreeEntry)
    (descend : Walk → Option (Option Err × Walk)) (w : Walk) :
    Option (Option Err × Walk) :=
  match CheckEntry pm w.1 entry.Name with
  | none => none
  | some (isValid, shouldGoInside) =>
    if !isValid then some (none, w)
    else if !shouldGoInside then some (none, (w.1, w.2 ++ entry.Hash.String))
    else descend w

mutual
/-- The function `lsTreeChecksum`.  `IsFilePathValid` is the method of
`true_git.PathFilter`, which is not part of the sources and is a parameter.
The result is `none` for a panic, else the returned error with the filter and
the bytes written. -/
def lsTreeChecksum (pm : Matcher) (IsFilePathValid : PathFilter → Str → Bool) :
    Tree → Str → Walk → Option (Option Err × Walk)
  | .mk entries _ subtree submodule, treePath, w =>
    forEntries (fun entry w =>
      let entryPathRelativeToRepo := Join [treePath, entry.Name]
      match entry.Mode with
      | .Dir =>
        checkedEntry pm entry
          (descendInto pm entry.Name (subtree entry.Name) (fun w1 =>
            lsTreeChecksumIn pm IsFilePathValid (subtree entry.Name)
              entryPathRelativeToRepo w1)) w
      | .Submodule =>
        checkedEntry pm entry
          (descendInto pm entry.Name (submodule entryPathRelativeToRepo) (fun w1 =>
            lsTreeChecksumIn pm IsFilePathValid (submodule entryPathRelativeToRepo)
              entryPathRelativeToRepo w1)) w
      | _ =>
        if IsFilePathValid w.1.toPathFilter entryPathRelativeToRepo then
          some (none, (w.1, w.2 ++ entry.Hash.String))
        else some (none, w)) entries w
/-- The recursive call of `lsTreeChecksum` on a tree that was looked up. -/
def lsTreeChecksumIn (pm : Matcher) (IsFilePathValid : PathFilter → Str → Bool) :
    TreeResult → Str → Walk → Option (Option Err × Walk)
  | .error err, _, w => some (some err, w)
  | .ok tree, treePath, w => lsTreeChecksum pm IsFilePathValid tree treePath w
end

/-- Go `filepath.ToSlash` (Unix): the identity. -/
def ToSlash (path : Str) : Str := path

/-- The first part of `LsTreeChecksum`, up to the test of
`ShouldNotWalkThroughTree`: the commit of `repository.Head()`, and the tree
the walk starts from, which is the root tree of the commit or, with a
`BasePath`, the tree of the directory or submodule entry found there. -/
def resolveTree (repository : Repository) (pathFilter : LsTreePathFilter) :
    Except Err (Commit × Tree) :=
  match repository.Head with
  | .error err => .error err
  | .ok ref =>
    match repository.CommitObject ref with
    | .error err => .error err
    | .ok commit =>
      match commit.Tree with
      | .error err => .error err
      | .ok tree =>
        if pathFilter.toPathFilter.BasePath ≠ [] then
          let basePath := ToSlash pathFilter.toPathFilter.BasePath
          match tree.FindEntry basePath with
          | .error err => .error err
          | .ok entry =>
            match entry.Mode with
            | .Dir =>
              match tree.subtree basePath with
              | .error err => .error err
              | .ok basePathTree => .ok (commit, basePathTree)
            | .Submodule =>
              match tree.submodule basePath with
              | .error err => .error err
              | .ok submoduleTree => .ok (commit, submoduleTree)
            | _ => .ok (commit, tree)
        else .ok (commit, tree)

/-- The end of `LsTreeChecksum` after the walk: `return nil, err` when the walk
returned an error, else `return h, nil`. -/
def walkResult : Option (Option Err × Walk) → Option (Except Err Str)
  | none => none
  | some (some err, _) => some (.error err)
  | some (none, w) => some (.ok w.2)

/-- The function `LsTreeChecksum`: `none` for a panic, else the returned
error or the bytes written to the hash it returns. -/
def LsTreeChecksum (pm : Matcher) (IsFilePathValid : PathFilter → Str → Bool)
    (repository : Repository) (pathFilter : LsTreePathFilter) :
    Option (Except Err Str) :=
  let h : Str := []
  match resolveTree repository pathFilter with
  | .error err => some (.error err)
  | .ok (commit, tree) =>
    if ShouldNotWalkThroughTree pathFilter then
      some (.ok (h ++ commit.Hash.String))
    else
      walkResult
        (lsTreeChecksum pm IsFilePathValid tree pathFilter.toPathFilter.BasePath (pathFilter, h))

/-- The filter that `checksumWithLsTree` builds from its options:
`opts.Paths` are appended to `opts.IncludePaths`. -/
def checksumFilter (basePath : Str) (includePaths excludePaths paths : List Str) :
    LsTreePathFilter :=
  NewLsTreePathFilter basePath (includePaths ++ paths) excludePaths

/-! ## Definitions used to state the theorems -/

/-- Go `strings.HasSuffix(s, suf)`. -/
def HasSuffix (s suf : Str) : Bool := HasPrefix s.reverse suf.reverse

/-- Whether the first segment of `glob` matches `entryName`. -/
def firstMatches (pm : Matcher) (entryName glob : Str) : Bool :=
  pm (firstPart glob) entryName == some true

/-- The matcher gives an answer, not an error, for the first segment of every
pattern of the list against `entryName`. -/
def MatchesCleanly (pm : Matcher) (entryName : Str) (globs : List Str) : Prop :=
  ∀ g ∈ globs, pm (firstPart g) entryName ≠ none

instance (pm : Matcher) (entryName : Str) (globs : List Str) :
    Decidable (MatchesCleanly pm entryName globs) := by
  unfold MatchesCleanly
  infer_instance

/-- Following the spec's words "first segment": the part of a pattern before
its first path separator, the whole pattern when it holds none. -/
def firstSegment (glob : Str) : Str := glob.takeWhile (fun c => c ≠ PathSeparator)

/-- Following the spec's words "segment": path separators divide a pattern
into segments, one more than there are separators. -/
def segmentCount (glob : Str) : Nat := glob.count PathSeparator + 1

/-- The include patterns that `CheckEntry` examines, in the spec's words: the
scan stops at the first pattern of more than one segment whose first segment
matches the name. -/
def examinedIncludes (pm : Matcher) (entryName : Str) : List Str → List Str
  | [] => []
  | g :: rest =>
    if pm (firstSegment g) entryName = some true ∧ segmentCount g > 1 then [g]
    else g :: examinedIncludes pm entryName rest

/-- The exclude patterns that `CheckEntry` examines, in the spec's words: the
scan stops at the first pattern of exactly one segment that matches the name. -/
def examinedExcludes (pm : Matcher) (entryName : Str) : List Str → List Str
  | [] => []
  | g :: rest =>
    if pm (firstSegment g) entryName = some true ∧ segmentCount g = 1 then [g]
    else g :: examinedExcludes pm entryName rest

/-- The matcher gives an answer, not an error, for the first segment of every
pattern of the list against `entryName`. -/
def Answers (pm : Matcher) (entryName : Str) (globs : List Str) : Prop :=
  ∀ g ∈ globs, pm (firstSegment g) entryName ≠ none

instance (pm : Matcher) (entryName : Str) (globs : List Str) :
    Decidable (Answers pm entryName globs) := by
  unfold Answers
  infer_instance

/-- What one glob contributes to `shiftGlobsArray`, in the words of the
specification: the remaining segments are joined by the separator. -/
def shiftGlobSpec (pm : Matcher) (entryName glob : Str) : Option Str :=
  if firstMatches pm entryName glob then
    if Contains (firstPart glob) ['*', '*'] then some glob
    else if partCount glob > 1 then
      some (joinSep PathSeparator ((Split PathSeparator glob).drop 1))
    else none
  else none

/-- What one glob contributes to `shiftGlobsArray`: as `shiftGlobSpec`, with
the remaining segments combined by `filepath.Join`. -/
def shiftGlob (pm : Matcher) (entryName glob : Str) : Option Str :=
  if firstMatches pm entryName glob then
    if Contains (firstPart glob) ['*', '*'] then some glob
    else if partCount glob > 1 then some (Join ((Split PathSeparator glob).drop 1))
    else none
  else none

/-- Every segment of `glob` after the first is a plain name: not empty, not
`.` and not `..`. -/
def PlainRest (glob : Str) : Prop :=
  ∀ p ∈ (Split PathSeparator glob).drop 1, p ≠ [] ∧ p ≠ ['.'] ∧ p ≠ ['.', '.']

/-- The lookup `tree.Tree(name)` on the root tree of the scenario `src/a.c`,
`src/b.c`, `docs/x.md`, given the ids of the three files. -/
def scenarioSubtree (xmd ac bc : Hash) : Str → TreeResult := fun name =>
  if name = "docs".toList then
    .ok (.mk [⟨"x.md".toList, .Regular, xmd⟩] (fun _ => .error "entry not found")
      (fun _ => .error "directory not found") (fun _ => .error "submodule not found"))
  else if name = "src".toList then
    .ok (.mk [⟨"a.c".toList, .Regular, ac⟩, ⟨"b.c".toList, .Regular, bc⟩]
      (fun _ => .error "entry not found") (fun _ => .error "directory not found")
      (fun _ => .error "submodule not found"))
  else .error "directory not found"

/-- The root tree of the scenario `src/a.c`, `src/b.c`, `docs/x.md`, given the
ids of its objects. -/
def scenarioTree (docs src xmd ac bc : Hash) : Tree :=
  .mk [⟨"docs".toList, .Dir, docs⟩, ⟨"src".toList, .Dir, src⟩]
    (fun _ => .error "entry not found") (scenarioSubtree xmd ac bc)
    (fun _ => .error "submodule not found")

/-- The hash whose twenty bytes all equal `b`. -/
def Hash.replicate (b : Fin 256) : Hash := ⟨List.replicate 20 b, by simp⟩

/-- A callback that overwrites both relative path lists, appends to its state
and fails. -/
def clobberingCallback : LsTreePathFilter × Str → Option (Option Err × LsTreePathFilter × Str) :=
  fun w => some (some "failed",
    { w.1 with IncludePathsRelativeToCurrentTree := []
               ExcludePathsRelativeToCurrentTree := ["zzz".toList] }, w.2 ++ ['x'])

/-- The body of the loop of `lsTreeChecksum` for one entry, with the recursive
call as the parameter `recur`. -/
def entryStep (pm : Matcher) (IsFilePathValid : PathFilter → Str → Bool)
    (recur : TreeResult → Str → Walk → Option (Option Err × Walk))
    (subtree submodule : Str → TreeResult) (treePath : Str) (entry : TreeEntry) (w : Walk) :
    Option (Option Err × Walk) :=
  match entry.Mode with
  | .Dir =>
    checkedEntry pm entry
      (descendInto pm entry.Name (subtree entry.Name) (fun w1 =>
        recur (subtree entry.Name) (Join [treePath, entry.Name]) w1)) w
  | .Submodule =>
    checkedEntry pm entry
      (descendInto pm entry.Name (submodule (Join [treePath, entry.Name])) (fun w1 =>
        recur (submodule (Join [treePath, entry.Name])) (Join [treePath, entry.Name]) w1)) w
  | _ =>
    if IsFilePathValid w.1.toPathFilter (Join [treePath, entry.Name]) then
      some (none, (w.1, w.2 ++ entry.Hash.String))
    else some (none, w)

/-- The repository whose `HEAD` is the commit `Hash.replicate 0` with the
scenario tree, its objects having the ids `Hash.replicate 1` to
`Hash.replicate 5`. -/
def scenarioRepository : Repository where
  Head := .ok (Hash.replicate 0)
  CommitObject := fun h =>
    if h = Hash.replicate 0 then
      .ok ⟨Hash.replicate 0, .ok (scenarioTree (Hash.replicate 1) (Hash.replicate 2)
        (Hash.replicate 3) (Hash.replicate 4) (Hash.replicate 5))⟩
    else .error "object not found"

/-- The paths of the scenario tree. -/
def scenarioPaths : List Str :=
  ["docs".toList, "docs/x.md".toList, "src".toList, "src/a.c".toList, "src/b.c".toList]

/-- An `IsFilePathValid` given by its answers on the three files of the
scenario tree. -/
def scenarioValid (b0 b1 b2 : Bool) : PathFilter → Str → Bool := fun _ path =>
  if path = "docs/x.md".toList then b0
  else if path = "src/a.c".toList then b1
  else b2

/-- Modelled from the spec: `IsFilePathValid` of `true_git.PathFilter`, which
is not part of the sources.  A path is valid when it starts with `BasePath`
(if set), matches at least one include pattern (or there is none) and matches
no exclude pattern. -/
def IsFilePathValid (pf : PathFilter) (path : Str) : Bool :=
  let hit := fun (glob : Str) => PathMatch glob path == some true
  HasPrefix path pf.BasePath &&
    (pf.IncludePaths.isEmpty || pf.IncludePaths.any hit) &&
    !pf.ExcludePaths.any hit

/-- The sixteen characters that `hex.EncodeToString` produces. -/
def hexDigits : Str :=
  ['0', '1', '2', '3', '4', '5', '6', '7', '8', '9', 'a', 'b', 'c', 'd', 'e', 'f']

/-- The root tree of a submodule repository: one file. -/
def libTree : Tree :=
  .mk [⟨"lib.go".toList, .Regular, Hash.replicate 7⟩]
    (fun _ => .error "entry not found") (fun _ => .error "directory not found")
    (fun _ => .error "submodule not found")

/-- The root tree of a repository with the submodule `vendor/lib` pinned to
the commit `Hash.replicate 1`, whose tree is `libTree`. -/
def vendorTree : Tree :=
  .mk [⟨"vendor".toList, .Dir, Hash.replicate 3⟩]
    (fun path =>
      if path = "vendor/lib".toList then .ok ⟨"lib".toList, .Submodule, Hash.replicate 1⟩
      else .error "entry not found")
    (fun name =>
      if name = "vendor".toList then
        .ok (.mk [⟨"lib".toList, .Submodule, Hash.replicate 1⟩]
          (fun _ => .error "entry not found") (fun _ => .error "directory not found")
          (fun path => if path = "vendor/lib".toList then .ok libTree
            else .error "submodule not found"))
      else .error "directory not found")
    (fun path => if path = "vendor/lib".toList then .ok libTree
      else .error "submodule not found")

/-- The repository whose `HEAD` is the commit `Hash.replicate 0` with the root
tree `vendorTree`. -/
def vendorRepository : Repository where
  Head := .ok (Hash.replicate 0)
  CommitObject := fun h =>
    if h = Hash.replicate 0 then .ok ⟨Hash.replicate 0, .ok vendorTree⟩
    else .error "object not found"

/-- The repository of the submodule `vendor/lib`: `HEAD` is the pinned commit
`Hash.replicate 1` with the root tree `libTree`. -/
def libRepository : Repository where
  Head := .ok (Hash.replicate 1)
  CommitObject := fun h =>
    if h = Hash.replicate 1 then .ok ⟨Hash.replicate 1, .ok libTree⟩
    else .error "object not found"

mutual
/-- The paths that the walk of `lsTreeChecksum` from `treePath` can hand to
`IsFilePathValid`: those of the entries that are neither directories nor
submodules, in the tree and in the trees below it. -/
def Tree.filePaths : Tree → Str → List Str
  | .mk entries _ subtree submodule, treePath =>
    entries.flatMap (fun entry =>
      match entry.Mode with
      | .Dir => TreeResult.filePaths (subtree entry.Name) (Join [treePath, entry.Name])
      | .Submodule =>
        TreeResult.filePaths (submodule (Join [treePath, entry.Name]))
          (Join [treePath, entry.Name])
      | _ => [Join [treePath, entry.Name]])
/-- The file paths of a tree that was looked up; none when the lookup failed. -/
def TreeResult.filePaths : TreeResult → Str → List Str
  | .error _, _ => []
  | .ok tree, treePath => tree.filePaths treePath
end

/-- Two states of the walk hold the filters `f1` and `f2` and the same bytes. -/
def SameBytes (f1 f2 : LsTreePathFilter) (a b : Walk) : Prop :=
  a.1 = f1 ∧ b.1 = f2 ∧ a.2 = b.2

/-- Two outcomes of a step of the walk agree: both panic, or both return the
same error value and states related by `I`. -/
def StepRel (I : Walk → Walk → Prop) :
    Option (Option Err × Walk) → Option (Option Err × Walk) → Prop
  | none, none => True
  | some (e1, a), some (e2, b) => e1 = e2 ∧ I a b
  | _, _ => False

/-! ## The repository queries of `base.go` -/

/-- The loop of Go `strings.Split(s, sep)` for a non-empty `sep`: `skip`
counts the characters of a separator still to pass over, `cur` holds the
piece being read, reversed. -/
def splitLoop (sep : Str) : Nat → Str → Str → List Str
  | _, cur, [] => [cur.reverse]
  | skip + 1, cur, _ :: cs => splitLoop sep skip cur cs
  | 0, cur, c :: cs =>
    if HasPrefix (c :: cs) sep then cur.reverse :: splitLoop sep (sep.length - 1) [] cs
    else splitLoop sep 0 (c :: cur) cs

/-- Go `strings.Split(s, sep)`: the pieces of `s` between the occurrences of
`sep`, found from the left and not overlapping; with an empty `sep`, the
characters of `s`. -/
def SplitOn (s sep : Str) : List Str :=
  if sep = [] then s.map (fun c => [c]) else splitLoop sep 0 [] s

/-- The variable `errNotABranch`. -/
def errNotABranch : Err :=
  "cannot get branch name: HEAD refers to a specific revision that is not associated with a branch name"

/-- The value `plumbing.ErrObjectNotFound`. -/
def ErrObjectNotFound : Err := "object not found"

/-- The prefix `refs/heads/` of branch references. -/
def refHeadPrefix : Str := "refs/heads/".toList

/-- The type `plumbing.Reference`, by its name and hash. -/
structure Reference where
  Name : Str
  Hash : Hash

/-- The method `ReferenceName.IsBranch`. -/
def IsBranch (name : Str) : Bool := HasPrefix name refHeadPrefix

/-- The method `getReferenceForRepo`.  `PlainOpen repoPath` is the outcome of
`git.PlainOpen(repoPath)`, the opened repository being given by the outcome of
its `Head()`. -/
def getReferenceForRepo (PlainOpen : Str → Except Err (Except Err Reference))
    (repoPath : Str) : Except Err Reference :=
  match PlainOpen repoPath with
  | .error err => .error ("cannot open repo `" ++ String.mk repoPath ++ "`: " ++ err)
  | .ok repository => repository

/-- The method `getHeadBranchName`: `none` when the index `[1]` is out of
range and the method panics. -/
def getHeadBranchName (PlainOpen : Str → Except Err (Except Err Reference))
    (repoPath : Str) : Option (Except Err Str) :=
  match getReferenceForRepo PlainOpen repoPath with
  | .error err =>
    some (.error ("cannot get repo `" ++ String.mk repoPath ++ "` head: " ++ err))
  | .ok ref =>
    if IsBranch ref.Name then
      let branchRef := ref.Name
      match (SplitOn branchRef refHeadPrefix).get? 1 with
      | none => none
      | some name => some (.ok name)
    else some (.error errNotABranch)

/-- The struct `object.Commit`, by the fields that `findCommitIdByMessage`
reads. -/
structure LogCommit where
  Hash : Hash
  Message : Str

/-- What a commit iterator yields to `ForEach`: the commits (a `nil` pointer is
`none`) that `Next` returns in turn, and how the iteration ends, `none` for
`io.EOF` and `some err` for another error of `Next`. -/
structure CommitIter where
  commits : List (Option LogCommit)
  ending : Option Err

/-- The part of `git.Repository` that `findCommitIdByMessage` reads:
`repository.CommitObject` and the iterator `object.NewCommitIterBSF(c, nil, nil)`. -/
structure LogRepository where
  CommitObject : Hash → Except Err LogCommit
  NewCommitIterBSF : LogCommit → CommitIter

/-- The method `commitIter.ForEach` with the callback of
`findCommitIdByMessage`, from the value `foundCommit`: the callback stores the
commit and returns `storer.ErrStop` when the message matches, which ends the
loop with a nil error; an error of `Next` is returned. -/
def forEachCommit (Match : Str → Bool) :
    List (Option LogCommit) → Option Err → Option LogCommit → Option Err × Option LogCommit
  | [], ending, foundCommit => (ending, foundCommit)
  | c :: rest, ending, foundCommit =>
    match c with
    | some commit =>
      if Match commit.Message then (none, some commit)
      else forEachCommit Match rest ending foundCommit
    | none => forEachCommit Match rest ending foundCommit

/-- The method `findCommitIdByMessage`.  `PlainOpen` is `git.PlainOpen`,
`newHash` the function of the package that parses a commit id, and `Compile`
is `regexp.Compile`, a compiled expression being given by its `Match`. -/
def findCommitIdByMessage (PlainOpen : Str → Except Err LogRepository)
    (newHash : Str → Except Err Hash) (Compile : Str → Except Err (Str → Bool))
    (repoPath regex headCommit : Str) : Except Err Str :=
  match PlainOpen repoPath with
  | .error err => .error ("cannot open repo `" ++ String.mk repoPath ++ "`: " ++ err)
  | .ok repository =>
    match newHash headCommit with
    | .error err =>
      .error ("bad head commit hash `" ++ String.mk headCommit ++ "`: " ++ err)
    | .ok headHash =>
      match repository.CommitObject headHash with
      | .error err =>
        .error ("cannot find head commit " ++ String.mk headCommit ++ ": " ++ err)
      | .ok commitObj =>
        let commitIter := repository.NewCommitIterBSF commitObj
        match Compile regex with
        | .error err => .error ("bad regex `" ++ String.mk regex ++ "`: " ++ err)
        | .ok regexObj =>
          match forEachCommit regexObj commitIter.commits commitIter.ending none with
          | (some err, foundCommit) =>
            if err ≠ ErrObjectNotFound then
              .error ("failed to traverse repository: " ++ err)
            else
              match foundCommit with
              | some c => .ok c.Hash.String
              | none => .ok []
          | (none, foundCommit) =>
            match foundCommit with
            | some c => .ok c.Hash.String
            | none => .ok []

/-- The first commit of the list whose message the expression matches. -/
def firstMatching (Match : Str → Bool) (commits : List (Option LogCommit)) :
    Option LogCommit :=
  match commits.find? (fun c => match c with
      | some commit => Match commit.Message
      | none => false) with
  | some (some commit) => some commit
  | _ => none

/-- The id that `findCommitIdByMessage` returns for a found commit, and the
empty string for none. -/
def foundId : Option LogCommit → Str
  | some c => c.Hash.String
  | none => []

/-- The characters that take a regular expression out of the modelled
fragment. -/
def regexMeta : Str := ['(', ')', '[', ']', '{', '}', '+', '?', '|', '\\', '^', '$']

/-- Whether the pattern character `p` matches the text character `c`: `.` is
any character but a newline. -/
def regexChar (p c : Char) : Bool := (p = '.' && c ≠ '\n') || (p ≠ '.' && p = c)

/-- The items of a pattern of the fragment: one character, a starred
character, or a `*` that has nothing to repeat. -/
inductive RegexItem where
  | one (p : Char)
  | star (p : Char)
  | stray
  deriving DecidableEq

/-- The items of a pattern, read from its end so that each `*` joins the
character before it. -/
def regexItems : Str → List RegexItem
  | [] => []
  | p :: rest =>
    if p = '*' then .stray :: regexItems rest
    else
      match regexItems rest with
      | .stray :: items => .star p :: items
      | items => .one p :: items

/-- The text and its suffixes after each leading run of characters that `p`
matches: the places where the rest of the pattern may start after `p*`. -/
def starTails (p : Char) : Str → List Str
  | [] => [[]]
  | c :: cs => if regexChar p c then (c :: cs) :: starTails p cs else [c :: cs]

/-- Matching of the items of a pattern at the start of a text. -/
def matchHere : List RegexItem → Str → Bool
  | [], _ => true
  | .one p :: items, text =>
    match text with
    | [] => false
    | c :: cs => regexChar p c && matchHere items cs
  | .star p :: items, text => (starTails p text).any (fun t => matchHere items t)
  | .stray :: _, _ => false

/-- Modelled from the spec: `regexp.Compile` belongs to the Go library and is
not part of the sources.  This is the fragment of the syntax made of literal
characters, `.`, `x*` and a leading `^`; `Match` reports whether the text
contains a match.  A pattern with another metacharacter is outside the
fragment and is reported as an error, as is a `*` with nothing to repeat.  The
theorems below hold for every `Compile`; this one serves as an instance. -/
def regexpCompile (regex : Str) : Except Err (Str → Bool) :=
  let anchored := HasPrefix regex ['^']
  let body := if anchored then regex.drop 1 else regex
  if body.any (fun c => regexMeta.elem c) then .error "outside the modelled fragment"
  else if (regexItems body).elem .stray then .error "missing argument to repetition operator"
  else if anchored then .ok (fun text => matchHere (regexItems body) text)
  else .ok (fun text => text.tails.any (fun t => matchHere (regexItems body) t))

/-- A history whose breadth-first order has the messages `Add X`, `Fix: Y`,
`Fix: Z`, with the ids `Hash.replicate 1`, `2`, `3`. -/
def fixHistory : LogRepository where
  CommitObject := fun h =>
    if h = Hash.replicate 1 then .ok ⟨Hash.replicate 1, "Add X\n".toList⟩
    else .error ErrObjectNotFound
  NewCommitIterBSF := fun _ =>
    ⟨[some ⟨Hash.replicate 1, "Add X\n".toList⟩, some ⟨Hash.replicate 2, "Fix: Y\n".toList⟩,
      some ⟨Hash.replicate 3, "Fix: Z\n".toList⟩], none⟩

/-- A `newHash` for the ids written as forty times the same hexadecimal digit
pair `0b`, with `b` a decimal digit. -/
def replicateHash (id : Str) : Except Err Hash :=
  match id with
  | '0' :: d :: _ =>
    if id = (Hash.replicate (Fin.ofNat (d.toNat - 48))).String then
      .ok (Hash.replicate (Fin.ofNat (d.toNat - 48)))
    else .error "invalid hash"
  | _ => .error "invalid hash"

/-- A `git.PlainOpen` that opens every path on a repository whose `HEAD`
resolves to the reference `name`. -/
def openAtHead (name : Str) : Str → Except Err (Except Err Reference) :=
  fun _ => .ok (.ok ⟨name, Hash.replicate 1⟩)

/-! ## The worktree engine of `base.go` -/

/-- The type `os.FileMode`: a 32-bit value. -/
abbrev OsFileMode := Nat

/-- The bit `os.ModeDir`. -/
def ModeDir : OsFileMode := 2 ^ 31

/-- The bit `os.ModeSymlink`. -/
def ModeSymlink : OsFileMode := 2 ^ 27

/-- The mask `os.ModeType`: directory, symlink, named pipe, socket, device,
character device, irregular. -/
def ModeType : OsFileMode := 2 ^ 31 + 2 ^ 27 + 2 ^ 26 + 2 ^ 25 + 2 ^ 24 + 2 ^ 21 + 2 ^ 19

/-- The method `FileMode.IsRegular`. -/
def IsRegular (m : OsFileMode) : Bool := m &&& ModeType == 0

/-- The method `FileMode.IsDir`. -/
def IsDir (m : OsFileMode) : Bool := m &&& ModeDir != 0

/-- The test `mode&os.ModeSymlink != 0`. -/
def isSymlink (m : OsFileMode) : Bool := m &&& ModeSymlink != 0

/-- Go `fmt.Sprintf("%o", mode)`: the value in octal. -/
def formatOctal (m : OsFileMode) : Str := Nat.toDigits 8 m

/-- What the file system calls return in a prepared worktree: `Glob` for
`doublestar.Glob`, `Lstat` for the mode of `os.Lstat`, `Walk root` for the
calls that `filepath.Walk(root, fn)` makes to `fn` while `fn` returns nil,
each with its path and either the mode of its `info` or its `accessErr`,
`ReadFile` for the bytes that `os.Open` and `io.Copy` deliver, or the error
that `checksum` returns when `Open`, `Copy` or `Close` fails, and `Readlink`
for `os.Readlink`. -/
structure WorkTree where
  Glob : Str → Except Err (List Str)
  Lstat : Str → Except Err OsFileMode
  Walk : Str → List (Str × Except Err OsFileMode)
  ReadFile : Str → Except Err Str
  Readlink : Str → Except Err Str

/-- The components of a cleaned path: its pieces between separators, without
the empty ones. -/
def pathComponents (path : Str) : List Str :=
  (Split PathSeparator path).filter (fun p => p ≠ [])

/-- The two lists without their longest common prefix. -/
def dropCommon : List Str → List Str → List Str × List Str
  | b :: bs, t :: ts => if b = t then dropCommon bs ts else (b :: bs, t :: ts)
  | bs, ts => (bs, ts)

/-- Go `filepath.Rel(basepath, targpath)` (Unix): the target relative to the
base, both cleaned; `.` for the base itself; one `..` for each component of
the base that the target does not share; an error when only one of them is
rooted or when the base would have to be left through a `..` of its own. -/
def Rel (basepath targpath : Str) : Except Err Str :=
  let base := Clean basepath
  let targ := Clean targpath
  if targ = base then .ok ['.']
  else
    let base := if base = ['.'] then [] else base
    if HasPrefix base [PathSeparator] ≠ HasPrefix targ [PathSeparator] then
      .error ("Rel: can't make " ++ String.mk targpath ++ " relative to " ++ String.mk basepath)
    else
      let rest := dropCommon (pathComponents base) (pathComponents targ)
      if rest.1.head? = some ['.', '.'] then
        .error ("Rel: can't make " ++ String.mk targpath ++ " relative to "
          ++ String.mk basepath)
      else
        .ok (joinSep PathSeparator (rest.1.map (fun _ => ['.', '.']) ++ rest.2))

/-- The part of a path after its last separator. -/
def lastElement (path : Str) : Str :=
  (Split PathSeparator path).getLastD []

/-- Go `filepath.Base(path)` (Unix): the last element of the path, after
trailing separators are removed; `.` for the empty path and the separator for
a path of separators only. -/
def Base (path : Str) : Str :=
  if path = [] then ['.']
  else
    let trimmed := TrimRight path [PathSeparator]
    let last := lastElement trimmed
    if last = [] then [PathSeparator] else last

/-- The byte-wise order of Go strings: `a ≤ b`. -/
def strLE : Str → Str → Bool
  | [], _ => true
  | _ :: _, [] => false
  | a :: as, b :: bs => a.toNat < b.toNat || (a = b && strLE as bs)

/-- Insertion of a string into a sorted list. -/
def insertSorted (x : Str) : List Str → List Str
  | [] => [x]
  | y :: ys => if strLE x y then x :: y :: ys else y :: insertSorted x ys

/-- Go `sort.Strings`: the strings in increasing order. -/
def sortStrings : List Str → List Str
  | [] => []
  | x :: xs => insertSorted x (sortStrings xs)

/-- The callback of `filepath.Walk` in `getFilesByPattern`, over the calls of
the walk, with `paths` as accumulator.  `stat` is the mode of the matched
directory, which the callback tests for a symlink; the error for an
`accessErr` formats the nil `err` of the enclosing loop. -/
def walkLoop (baseDir : Str) (stat : OsFileMode) :
    List (Str × Except Err OsFileMode) → List Str → Except Err (List Str)
  | [], paths => .ok paths
  | (fullWalkPath, info) :: rest, paths =>
    match info with
    | .error _ =>
      .error ("error accessing file `" ++ String.mk fullWalkPath ++ "`: %!s(<nil>)")
    | .ok infoMode =>
      if IsRegular infoMode || isSymlink stat then
        match Rel baseDir fullWalkPath with
        | .error err =>
          .error ("error getting relative path for `" ++ String.mk fullWalkPath ++ "`: " ++ err)
        | .ok path => walkLoop baseDir stat rest (paths ++ [path])
      else walkLoop baseDir stat rest paths

/-- The loop of `getFilesByPattern` over the matches of the glob, with `paths`
as accumulator. -/
def matchesLoop (wt : WorkTree) (baseDir : Str) : List Str → List Str → Except Err (List Str)
  | [], paths => .ok paths
  | fullPath :: rest, paths =>
    match wt.Lstat fullPath with
    | .error err =>
      .error ("error accessing file `" ++ String.mk fullPath ++ "`: " ++ err)
    | .ok stat =>
      if IsRegular stat || isSymlink stat then
        match Rel baseDir fullPath with
        | .error err =>
          .error ("error getting relative path for `" ++ String.mk fullPath ++ "`: " ++ err)
        | .ok path => matchesLoop wt baseDir rest (paths ++ [path])
      else if IsDir stat then
        match walkLoop baseDir stat (wt.Walk fullPath) paths with
        | .error err =>
          .error ("error scanning directory `" ++ String.mk fullPath ++ "`: " ++ err)
        | .ok paths1 => matchesLoop wt baseDir rest paths1
      else matchesLoop wt baseDir rest paths

/-- The function `getFilesByPattern`. -/
def getFilesByPattern (wt : WorkTree) (baseDir pathPattern : Str) : Except Err (List Str) :=
  let fullPathPattern := Join [baseDir, pathPattern]
  match wt.Glob fullPathPattern with
  | .error err => .error err
  | .ok found => matchesLoop wt baseDir found []

/-- The struct `ChecksumOptions`. -/
structure ChecksumOptions where
  BasePath : Str
  Paths : List Str
  IncludePaths : List Str
  ExcludePaths : List Str
  Commit : Str

/-- The struct `ChecksumDescriptor`: the patterns without a match, and the
bytes written to `Hash`. -/
structure ChecksumDescriptor where
  NoMatchPaths : List Str
  Hash : Str
  deriving DecidableEq

/-- The first loop of the callback of `checksum`, over `opts.Paths`, with
`checksum.NoMatchPaths` and `paths` as accumulators. -/
def collectLoop (wt : WorkTree) (workTreeDir basePath : Str) :
    List Str → List Str → List Str → Except Err (List Str × List Str)
  | [], noMatchPaths, paths => .ok (noMatchPaths, paths)
  | pathPattern :: rest, noMatchPaths, paths =>
    match getFilesByPattern wt workTreeDir (Join [basePath, pathPattern]) with
    | .error err =>
      .error ("error getting files by path pattern `" ++ String.mk pathPattern ++ "`: " ++ err)
    | .ok res =>
      let noMatchPaths1 := if res.length = 0 then noMatchPaths ++ [pathPattern] else noMatchPaths
      collectLoop wt workTreeDir basePath rest noMatchPaths1 (paths ++ res)

/-- The second loop of the callback of `checksum`, over the sorted paths, from
the bytes `h` written so far.  `IsFilePathValid` is the method of
`true_git.PathFilter`, a parameter.  The reads that only feed the debug log
are left out: they repeat `ReadFile` and cannot change the outcome. -/
def hashLoop (wt : WorkTree) (IsFilePathValid : PathFilter → Str → Bool)
    (workTreeDir : Str) (pathFilter : PathFilter) : List Str → Str → Except Err Str
  | [], h => .ok h
  | path :: rest, h =>
    let fullPath := Join [workTreeDir, path]
    if Base path = ".git".toList then hashLoop wt IsFilePathValid workTreeDir pathFilter rest h
    else if !IsFilePathValid pathFilter path then
      hashLoop wt IsFilePathValid workTreeDir pathFilter rest h
    else
      let h1 := h ++ path
      match wt.Lstat fullPath with
      | .error err => .error ("error accessing file `" ++ String.mk fullPath ++ "`: " ++ err)
      | .ok stat =>
        let h2 := h1 ++ formatOctal stat
        if IsRegular stat then
          match wt.ReadFile fullPath with
          | .error err => .error err
          | .ok content =>
            hashLoop wt IsFilePathValid workTreeDir pathFilter rest (h2 ++ content)
        else if isSymlink stat then
          match wt.Readlink fullPath with
          | .error err =>
            .error ("cannot read symlink `" ++ String.mk fullPath ++ "`: " ++ err)
          | .ok linkname =>
            hashLoop wt IsFilePathValid workTreeDir pathFilter rest (h2 ++ linkname)
        else hashLoop wt IsFilePathValid workTreeDir pathFilter rest h2

/-- The callback that `checksum` hands to `true_git.WithWorkTree`, on the
worktree at `workTreeDir`: the descriptor it fills in, or its error. -/
def checksumInWorkTree (wt : WorkTree) (IsFilePathValid : PathFilter → Str → Bool)
    (workTreeDir : Str) (opts : ChecksumOptions) : Except Err ChecksumDescriptor :=
  match collectLoop wt workTreeDir opts.BasePath opts.Paths [] [] with
  | .error err => .error err
  | .ok (noMatchPaths, paths) =>
    let sorted := sortStrings paths
    let pathFilter : PathFilter :=
      { BasePath := opts.BasePath
        IncludePaths := opts.IncludePaths
        ExcludePaths := opts.ExcludePaths }
    match hashLoop wt IsFilePathValid workTreeDir pathFilter sorted [] with
    | .error err => .error err
    | .ok h => .ok { NoMatchPaths := noMatchPaths, Hash := h }

/-- The value `object.ErrFileNotFound`. -/
def ErrFileNotFound : Err := "file not found"

/-- The function `HasSubmodulesInCommit`, given the outcome of
`commit.File(".gitmodules")`. -/
def HasSubmodulesInCommit (gitmodules : Except Err Unit) : Except Err Bool :=
  match gitmodules with
  | .ok _ => .ok true
  | .error err => if err = ErrFileNotFound then .ok false else .error err

/-- What `checksum` reads before it walks the worktree: `CommitObject h` is
the outcome of `repository.CommitObject(h)`, the commit being given by the
outcome of its `File(".gitmodules")`. -/
structure ChecksumRepository where
  CommitObject : Hash → Except Err (Except Err Unit)

/-- The method `checksum`.  `PlainOpen` is `git.PlainOpen`, `newHash` the
function of the package that parses a commit id, and `WithWorkTree gitDir
workTreeCacheDir commit hasSubmodules` is what `true_git.WithWorkTree`
prepares before it runs the callback, whose error it returns unchanged. -/
def checksum (PlainOpen : Str → Except Err ChecksumRepository)
    (newHash : Str → Except Err Hash)
    (WithWorkTree : Str → Str → Str → Bool → Except Err (Str × WorkTree))
    (IsFilePathValid : PathFilter → Str → Bool)
    (repoPath gitDir workTreeCacheDir : Str) (opts : ChecksumOptions) :
    Except Err ChecksumDescriptor :=
  match PlainOpen repoPath with
  | .error err => .error ("cannot open repo `" ++ String.mk repoPath ++ "`: " ++ err)
  | .ok repository =>
    match newHash opts.Commit with
    | .error err => .error ("bad commit hash `" ++ String.mk opts.Commit ++ "`: " ++ err)
    | .ok commitHash =>
      match repository.CommitObject commitHash with
      | .error err => .error ("bad commit `" ++ String.mk opts.Commit ++ "`: " ++ err)
      | .ok commit =>
        match HasSubmodulesInCommit commit with
        | .error err => .error err
        | .ok hasSubmodules =>
          match WithWorkTree gitDir workTreeCacheDir opts.Commit hasSubmodules with
          | .error err => .error err
          | .ok (workTreeDir, wt) => checksumInWorkTree wt IsFilePathValid workTreeDir opts

/-- A worktree at `/w` with the directory `d`, the regular file `d/f` and the
symlink `d/link` to `target`. -/
def linkWorkTree (target : Str) : WorkTree where
  Glob := fun pattern =>
    if pattern = "/w/d".toList then .ok ["/w/d".toList]
    else if pattern = "/w/d/link".toList then .ok ["/w/d/link".toList]
    else .ok []
  Lstat := fun path =>
    if path = "/w/d".toList then .ok (ModeDir + 493)
    else if path = "/w/d/f".toList then .ok 420
    else if path = "/w/d/link".toList then .ok (ModeSymlink + 511)
    else .error "no such file or directory"
  Walk := fun root =>
    if root = "/w/d".toList then
      [("/w/d".toList, .ok (ModeDir + 493)), ("/w/d/f".toList, .ok 420),
        ("/w/d/link".toList, .ok (ModeSymlink + 511))]
    else [(root, .error "no such file or directory")]
  ReadFile := fun path =>
    if path = "/w/d/f".toList then .ok "x\n".toList
    else .error "unable to open file"
  Readlink := fun path =>
    if path = "/w/d/link".toList then .ok target
    else .error "invalid argument"

/-- A `git.PlainOpen` that opens every path on a repository in which every
commit is found and has no `.gitmodules`. -/
def openPlain : Str → Except Err ChecksumRepository :=
  fun _ => .ok ⟨fun _ => .ok (.error ErrFileNotFound)⟩

/-- A `true_git.WithWorkTree` that prepares the worktree `wt` at `/w`. -/
def withWorkTreeAt (wt : WorkTree) : Str → Str → Str → Bool → Except Err (Str × WorkTree) :=
  fun _ _ _ _ => .ok ("/w".toList, wt)

/-- The options of a checksum of the commit `Hash.replicate 1` with the given
path patterns and no base path or globs. -/
def pathsOnly (paths : List Str) : ChecksumOptions where
  BasePath := []
  Paths := paths
  IncludePaths := []
  ExcludePaths := []
  Commit := (Hash.replicate 1).String

/-- The method `checksum` on the worktree `wt` prepared at `/w`, with a path
filter that accepts every path. -/
def checksumAt (wt : WorkTree) (paths : List Str) : Except Err ChecksumDescriptor :=
  checksum openPlain replicateHash (withWorkTreeAt wt) (fun _ _ => true)
    "/repo".toList "/repo/.git".toList "/cache".toList (pathsOnly paths)

/-- The function `GitOpenWithCustomWorktreeDir`.  `Open storageDir filesDir`
is `git.Open` on the object storage kept in `storageDir` and the file system
rooted at `filesDir`; the repository it returns reads `HEAD` and the objects
from the storage. -/
def GitOpenWithCustomWorktreeDir (Open : Str → Str → Except Err Repository)
    (gitDir worktreeDir : Str) : Except Err Repository :=
  Open gitDir worktreeDir

/-- The method `checksumWithLsTree`.  `PlainOpen`, `newHash` and
`WithWorkTree` are as in `checksum`; the callback handed to `WithWorkTree`
opens the repository on the prepared worktree and runs `LsTreeChecksum`.  The
result is `none` when the walk panics; `NoMatchPaths` stays empty.  The debug
log is left out. -/
def checksumWithLsTree (PlainOpen : Str → Except Err ChecksumRepository)
    (newHash : Str → Except Err Hash)
    (WithWorkTree : Str → Str → Str → Bool → Except Err (Str × WorkTree))
    (Open : Str → Str → Except Err Repository)
    (pm : Matcher) (IsFilePathValid : PathFilter → Str → Bool)
    (repoPath gitDir workTreeCacheDir : Str) (opts : ChecksumOptions) :
    Option (Except Err ChecksumDescriptor) :=
  match PlainOpen repoPath with
  | .error err => some (.error ("cannot open repo `" ++ String.mk repoPath ++ "`: " ++ err))
  | .ok repository =>
    match newHash opts.Commit with
    | .error err =>
      some (.error ("bad commit hash `" ++ String.mk opts.Commit ++ "`: " ++ err))
    | .ok commitHash =>
      match repository.CommitObject commitHash with
      | .error err =>
        some (.error ("bad commit `" ++ String.mk opts.Commit ++ "`: " ++ err))
      | .ok commit =>
        match HasSubmodulesInCommit commit with
        | .error err => some (.error err)
        | .ok hasSubmodules =>
          match WithWorkTree gitDir workTreeCacheDir opts.Commit hasSubmodules with
          | .error err => some (.error err)
          | .ok (worktreeDir, _) =>
            match GitOpenWithCustomWorktreeDir Open gitDir worktreeDir with
            | .error err => some (.error err)
            | .ok repositoryWithPreparedWorktree =>
              let pathFilter := NewLsTreePathFilter opts.BasePath
                (opts.IncludePaths ++ opts.Paths) opts.ExcludePaths
              match LsTreeChecksum pm IsFilePathValid repositoryWithPreparedWorktree
                  pathFilter with
              | none => none
              | some (.error err) => some (.error err)
              | some (.ok h) => some (.ok { NoMatchPaths := [], Hash := h })

/-- A repository with two commits: `HEAD` resolves to `Hash.replicate 0`, whose
root tree is `vendorTree`; its parent `Hash.replicate 1` has the root tree
`libTree`. -/
def historyRepository : Repository where
  Head := .ok (Hash.replicate 0)
  CommitObject := fun h =>
    if h = Hash.replicate 0 then .ok ⟨Hash.replicate 0, .ok vendorTree⟩
    else if h = Hash.replicate 1 then .ok ⟨Hash.replicate 1, .ok libTree⟩
    else .error "object not found"

/-- A `git.PlainOpen` that opens every path on the repository of
`historyRepository`: its two commits are found and have no `.gitmodules`. -/
def openHistory : Str → Except Err ChecksumRepository :=
  fun _ => .ok ⟨fun h =>
    if h = Hash.replicate 0 ∨ h = Hash.replicate 1 then .ok (.error ErrFileNotFound)
    else .error "object not found"⟩

/-- A `git.Open` that finds the storage of `historyRepository` in `/repo/.git`,
whatever file system it is given. -/
def openHistoryStorage : Str → Str → Except Err Repository :=
  fun storageDir _ =>
    if storageDir = "/repo/.git".toList then .ok historyRepository
    else .error "repository does not exist"

/-- The filter state in which `WithoutEntryInPaths` runs its callback for the
entry `entryName`: both relative lists shifted; `none` when a shift panics. -/
def shiftedFilter (pm : Matcher) (entryName : Str) (f : LsTreePathFilter) :
    Option LsTreePathFilter :=
  match shiftGlobsArray pm entryName f.IncludePathsRelativeToCurrentTree,
      shiftGlobsArray pm entryName f.ExcludePathsRelativeToCurrentTree with
  | some inc, some exc =>
    some { f with IncludePathsRelativeToCurrentTree := inc
                  ExcludePathsRelativeToCurrentTree := exc }
  | _, _ => none

/-- The walk passes a directory or submodule entry without writing to the
hash: `CheckEntry` skips the entry, or asks to go inside it, the inner tree is
found and `inside` holds of the shifted filter. -/
def quietEntry (pm : Matcher) (entryName : Str) (f : LsTreePathFilter)
    (inside : LsTreePathFilter → Bool) : Bool :=
  match CheckEntry pm f entryName with
  | some (false, _) => true
  | some (true, true) =>
    match shiftedFilter pm entryName f with
    | some f1 => inside f1
    | none => false
  | _ => false

mutual
/-- The walk of the tree under the filter `f` writes nothing to the hash and
returns no error: every file is rejected by `IsFilePathValid`, and every
directory or submodule entry is skipped or entered and walked in the same
way. -/
def Tree.absorbsNothing (pm : Matcher) (IsFilePathValid : PathFilter → Str → Bool) :
    Tree → Str → LsTreePathFilter → Bool
  | .mk entries _ subtree submodule, treePath, f =>
    entries.all (fun entry =>
      match entry.Mode with
      | .Dir =>
        quietEntry pm entry.Name f (fun f1 =>
          TreeResult.absorbsNothing pm IsFilePathValid (subtree entry.Name)
            (Join [treePath, entry.Name]) f1)
      | .Submodule =>
        quietEntry pm entry.Name f (fun f1 =>
          TreeResult.absorbsNothing pm IsFilePathValid (submodule (Join [treePath, entry.Name]))
            (Join [treePath, entry.Name]) f1)
      | _ => !IsFilePathValid f.toPathFilter (Join [treePath, entry.Name]))
/-- As `Tree.absorbsNothing`, on a tree that was looked up; a failed lookup
returns its error. -/
def TreeResult.absorbsNothing (pm : Matcher) (IsFilePathValid : PathFilter → Str → Bool) :
    TreeResult → Str → LsTreePathFilter → Bool
  | .error _, _, _ => false
  | .ok tree, treePath, f => tree.absorbsNothing pm IsFilePathValid treePath f
end

/-- The walk treats a directory or submodule entry alike under the filters `f`
and `fNew`: `CheckEntry` answers the same under both and, when it asks to go
inside, `same` holds of the two shifted filters (or the lookup of the inner
tree fails, or both shifts panic); or the entry is skipped under `f` and
entered under `fNew`, and `inside` holds of the shifted `fNew`. -/
def sameEntry (pm : Matcher) (entryName : Str) (f fNew : LsTreePathFilter)
    (looked : TreeResult) (same : LsTreePathFilter → LsTreePathFilter → Bool)
    (inside : LsTreePathFilter → Bool) : Bool :=
  match CheckEntry pm f entryName, CheckEntry pm fNew entryName with
  | some (true, true), some (true, true) =>
    match looked with
    | .error _ => true
    | .ok _ =>
      match shiftedFilter pm entryName f, shiftedFilter pm entryName fNew with
      | some f1, some fNew1 => same f1 fNew1
      | none, none => true
      | _, _ => false
  | some (false, _), some (true, true) =>
    match shiftedFilter pm entryName fNew with
    | some fNew1 => inside fNew1
    | none => false
  | c, cNew => c == cNew

mutual
/-- The walks of the tree under the filters `f` and `fNew` take the same way:
at every directory or submodule entry they reach, `CheckEntry` answers the
same under both filter states, or the entry is skipped under `f` and entered
under `fNew` without anything inside being written to the hash. -/
def Tree.sameWalk (pm : Matcher) (IsFilePathValid : PathFilter → Str → Bool) :
    Tree → Str → LsTreePathFilter → LsTreePathFilter → Bool
  | .mk entries _ subtree submodule, treePath, f, fNew =>
    entries.all (fun entry =>
      match entry.Mode with
      | .Dir =>
        sameEntry pm entry.Name f fNew (subtree entry.Name)
          (fun f1 fNew1 =>
            TreeResult.sameWalk pm IsFilePathValid (subtree entry.Name)
              (Join [treePath, entry.Name]) f1 fNew1)
          (fun fNew1 =>
            TreeResult.absorbsNothing pm IsFilePathValid (subtree entry.Name)
              (Join [treePath, entry.Name]) fNew1)
      | .Submodule =>
        sameEntry pm entry.Name f fNew (submodule (Join [treePath, entry.Name]))
          (fun f1 fNew1 =>
            TreeResult.sameWalk pm IsFilePathValid (submodule (Join [treePath, entry.Name]))
              (Join [treePath, entry.Name]) f1 fNew1)
          (fun fNew1 =>
            TreeResult.absorbsNothing pm IsFilePathValid
              (submodule (Join [treePath, entry.Name])) (Join [treePath, entry.Name]) fNew1)
      | _ => true)
/-- As `Tree.sameWalk`, on a tree that was looked up. -/
def TreeResult.sameWalk (pm : Matcher) (IsFilePathValid : PathFilter → Str → Bool) :
    TreeResult → Str → LsTreePathFilter → LsTreePathFilter → Bool
  | .error _, _, _, _ => true
  | .ok tree, treePath, f, fNew => tree.sameWalk pm IsFilePathValid treePath f fNew
end

/-! ## Lemmas on the loops of the path filter -/

theorem formatGlobsLoop_eq (globs resGlobs : List Str) :
    formatGlobsLoop globs resGlobs =
      resGlobs ++ globs.filterMap
        (fun g => if formatGlob g ≠ [] then some (formatGlob g) else none) := by
  induction globs generalizing resGlobs with
  | nil => simp [formatGlobsLoop]
  | cons g rest ih =>
    by_cases h : formatGlob g = []
    · simp [formatGlobsLoop, List.filterMap_cons, h, ih]
    · simp [formatGlobsLoop, List.filterMap_cons, h, ih]

theorem shiftGlobsLoop_eq (pm : Matcher) (entryName : Str) (globs resGlobs : List Str)
    (hpm : MatchesCleanly pm entryName globs) :
    shiftGlobsLoop pm entryName globs resGlobs =
      some (resGlobs ++ globs.filterMap (shiftGlob pm entryName)) := by
  induction globs generalizing resGlobs with
  | nil => simp [shiftGlobsLoop]
  | cons g rest ih =>
    have hrest : MatchesCleanly pm entryName rest :=
      fun x hx => hpm x (List.mem_cons_of_mem _ hx)
    have hg : pm (firstPart g) entryName ≠ none := hpm g (List.mem_cons_self _ _)
    cases hm : pm (firstPart g) entryName with
    | none => exact absurd hm hg
    | some m =>
      cases m with
      | false =>
        simp [shiftGlobsLoop, hm, ih _ hrest, List.filterMap_cons, shiftGlob, firstMatches]
      | true =>
        by_cases hc : Contains (firstPart g) ['*', '*'] = true
        · simp [shiftGlobsLoop, hm, ih _ hrest, List.filterMap_cons, shiftGlob,
            firstMatches, hc]
        · by_cases hn : partCount g > 1
          · simp [shiftGlobsLoop, hm, ih _ hrest, List.filterMap_cons, shiftGlob,
              firstMatches, hc, hn]
          · simp [shiftGlobsLoop, hm, ih _ hrest, List.filterMap_cons, shiftGlob,
              firstMatches, hc, hn]

theorem shiftGlobsLoop_none (pm : Matcher) (entryName : Str) (globs resGlobs : List Str)
    (hpm : ¬ MatchesCleanly pm entryName globs) :
    shiftGlobsLoop pm entryName globs resGlobs = none := by
  induction globs generalizing resGlobs with
  | nil => exact absurd (fun g hg => nomatch hg) hpm
  | cons g rest ih =>
    cases hm : pm (firstPart g) entryName with
    | none => simp [shiftGlobsLoop, hm]
    | some m =>
      have hrest : ¬ MatchesCleanly pm entryName rest := by
        intro h
        apply hpm
        intro x hx
        rcases List.mem_cons.1 hx with rfl | hx
        · simp [hm]
        · exact h x hx
      unfold shiftGlobsLoop
      simp only [hm]
      split_ifs <;> exact ih _ hrest

theorem checkExcludes_no_match (pm : Matcher) (entryName : Str) (globs : List Str)
    (st : Bool × Bool) (hno : ∀ g ∈ globs, pm (firstPart g) entryName = some false) :
    checkExcludes pm entryName globs st = some st := by
  induction globs generalizing st with
  | nil => simp [checkExcludes]
  | cons g rest ih =>
    obtain ⟨v, d⟩ := st
    have hg := hno g (List.mem_cons_self _ _)
    simp [checkExcludes, hg, ih _ (fun x hx => hno x (List.mem_cons_of_mem _ hx))]

/-! ## Lemmas on `Split`, `Clean` and `Join` -/

theorem Split_ne_nil (sep : Char) (s : Str) : Split sep s ≠ [] := by
  cases s with
  | nil => simp [Split]
  | cons c cs =>
    unfold Split
    split_ifs
    · simp
    · split <;> simp

theorem Split_no_sep (sep : Char) (s : Str) : ∀ p ∈ Split sep s, sep ∉ p := by
  induction s with
  | nil => simp [Split]
  | cons c cs ih =>
    intro p hp
    unfold Split at hp
    split_ifs at hp with hc
    · rcases List.mem_cons.1 hp with rfl | hp
      · simp
      · exact ih p hp
    · split at hp
      · simp at hp
        subst hp
        simpa using Ne.symm hc
      · rename_i q qs hq
        rcases List.mem_cons.1 hp with rfl | hp
        · have hq1 : sep ∉ q := ih q (by rw [hq]; exact List.mem_cons_self _ _)
          simp only [List.mem_cons, not_or]
          exact ⟨Ne.symm hc, hq1⟩
        · exact ih p (by rw [hq]; exact List.mem_cons_of_mem _ hp)

theorem Split_append_sep (sep : Char) (e : Str) (rest : Str) (he : sep ∉ e) :
    Split sep (e ++ sep :: rest) = e :: Split sep rest := by
  induction e with
  | nil => simp [Split]
  | cons c cs ih =>
    have hc : c ≠ sep := fun h => he (by simp [h])
    have hcs : sep ∉ cs := fun h => he (List.mem_cons_of_mem _ h)
    simp [Split, hc, ih hcs]

theorem Split_of_no_sep (sep : Char) (e : Str) (he : sep ∉ e) : Split sep e = [e] := by
  induction e with
  | nil => simp [Split]
  | cons c cs ih =>
    have hc : c ≠ sep := fun h => he (by simp [h])
    have hcs : sep ∉ cs := fun h => he (List.mem_cons_of_mem _ h)
    simp [Split, hc, ih hcs]

theorem Split_joinSep (sep : Char) (segs : List Str) (hne : segs ≠ [])
    (hsep : ∀ p ∈ segs, sep ∉ p) : Split sep (joinSep sep segs) = segs := by
  induction segs with
  | nil => exact absurd rfl hne
  | cons e es ih =>
    cases es with
    | nil => simpa [joinSep] using Split_of_no_sep sep e (hsep e (List.mem_cons_self _ _))
    | cons e2 es2 =>
      have h1 := Split_append_sep sep e (joinSep sep (e2 :: es2)) (hsep e (List.mem_cons_self _ _))
      have h2 := ih (by simp) (fun p hp => hsep p (List.mem_cons_of_mem _ hp))
      simp only [joinSep]
      rw [h1, h2]

theorem foldl_cleanStep_plain (rooted : Bool) (segs stack : List Str)
    (hplain : ∀ p ∈ segs, p ≠ [] ∧ p ≠ ['.'] ∧ p ≠ ['.', '.']) :
    segs.foldl (cleanStep rooted) stack = segs.reverse ++ stack := by
  induction segs generalizing stack with
  | nil => simp
  | cons e es ih =>
    obtain ⟨h1, h2, h3⟩ := hplain e (List.mem_cons_self _ _)
    have hstep : cleanStep rooted stack e = e :: stack := by
      simp [cleanStep, h1, h2, h3]
    simp [List.foldl_cons, hstep, ih _ (fun p hp => hplain p (List.mem_cons_of_mem _ hp))]

theorem Join_plain (segs : List Str) (hne : segs ≠ [])
    (hsep : ∀ p ∈ segs, PathSeparator ∉ p)
    (hplain : ∀ p ∈ segs, p ≠ [] ∧ p ≠ ['.'] ∧ p ≠ ['.', '.']) :
    Join segs = joinSep PathSeparator segs := by
  cases segs with
  | nil => exact absurd rfl hne
  | cons e es =>
    obtain ⟨h1, -, -⟩ := hplain e (List.mem_cons_self _ _)
    have hes : PathSeparator ∉ e := hsep e (List.mem_cons_self _ _)
    obtain ⟨c, cs, rfl⟩ := List.exists_cons_of_ne_nil h1
    have hc : c ≠ PathSeparator := fun h => hes (by simp [h])
    have hhead : ∃ tl, joinSep PathSeparator ((c :: cs) :: es) = c :: tl := by
      cases es with
      | nil => exact ⟨cs, rfl⟩
      | cons e2 es2 => exact ⟨cs ++ PathSeparator :: joinSep PathSeparator (e2 :: es2), rfl⟩
    obtain ⟨tl, htl⟩ := hhead
    have hroot : HasPrefix (joinSep PathSeparator ((c :: cs) :: es)) [PathSeparator] = false := by
      rw [htl]
      simp [HasPrefix, hc]
    have hbody : joinSep PathSeparator ((c :: cs) :: es) ≠ [] := by
      rw [htl]
      simp
    simp only [Join, h1, if_false, Clean, hroot, Split_joinSep _ _ hne hsep,
      foldl_cleanStep_plain _ _ _ hplain, List.append_nil, List.reverse_reverse]
    simp [hbody]

theorem shiftGlob_eq_spec (pm : Matcher) (entryName glob : Str) (h : PlainRest glob) :
    shiftGlob pm entryName glob = shiftGlobSpec pm entryName glob := by
  unfold shiftGlob shiftGlobSpec
  by_cases hn : partCount glob > 1
  · have hne : (Split PathSeparator glob).drop 1 ≠ [] := by
      intro h0
      have := congrArg List.length h0
      simp [partCount] at hn this
      omega
    have hsep : ∀ p ∈ (Split PathSeparator glob).drop 1, PathSeparator ∉ p :=
      fun p hp => Split_no_sep _ _ p (List.mem_of_mem_drop hp)
    rw [Join_plain _ hne hsep h]
  · simp [hn]

/-! ## The path filter -/

/-- C1: with `includePaths = []` and `excludePaths = ["docs"]` the filter of
`NewLsTreePathFilter` answers `CheckEntry("src")` with `(false, false)`, not
`(true, false)`: no include pattern sets `isValidEntry`.  On the tree with the
directories `docs` and `src` the walk of `lsTreeChecksum` therefore skips both
and writes nothing to the hash, whatever the object ids and `IsFilePathValid`
are. -/
theorem CheckEntry_empty_includes_skips_src :
    CheckEntry PathMatch (NewLsTreePathFilter [] [] ["docs".toList]) "src".toList
        = some (false, false) ∧
      ∀ (IsFilePathValid : PathFilter → Str → Bool) (docs src xmd ac bc : Hash),
        lsTreeChecksum PathMatch IsFilePathValid (scenarioTree docs src xmd ac bc) []
            (NewLsTreePathFilter [] [] ["docs".toList], [])
          = some (none, (NewLsTreePathFilter [] [] ["docs".toList], [])) := by
  refine ⟨by decide, ?_⟩
  intro IsFilePathValid docs src xmd ac bc
  rfl

/-- C2: when neither shift panics and the callback returns, with error value
`err` (nil or not), filter `f1` and state `s1`, `WithoutEntryInPaths` returns
the same `err` and `s1`, and a filter whose `IncludePathsRelativeToCurrentTree`
and `ExcludePathsRelativeToCurrentTree` are those of before the call, whatever
the callback left in `f1`. -/
theorem WithoutEntryInPaths_restores {σ ε : Type} (pm : Matcher) (entryName : Str)
    (ff : LsTreePathFilter × σ → Option (ε × LsTreePathFilter × σ))
    (f : LsTreePathFilter) (s : σ) (inc exc : List Str)
    (err : ε) (f1 : LsTreePathFilter) (s1 : σ)
    (hinc : shiftGlobsArray pm entryName f.IncludePathsRelativeToCurrentTree = some inc)
    (hexc : shiftGlobsArray pm entryName f.ExcludePathsRelativeToCurrentTree = some exc)
    (hff : ff ({ f with IncludePathsRelativeToCurrentTree := inc
                        ExcludePathsRelativeToCurrentTree := exc }, s) = some (err, f1, s1)) :
    ∃ f2, WithoutEntryInPaths pm entryName ff (f, s) = some (err, f2, s1) ∧
      f2.IncludePathsRelativeToCurrentTree = f.IncludePathsRelativeToCurrentTree ∧
      f2.ExcludePathsRelativeToCurrentTree = f.ExcludePathsRelativeToCurrentTree ∧
      f2.toPathFilter = f1.toPathFilter := by
  refine ⟨{ f1 with
    IncludePathsRelativeToCurrentTree := f.IncludePathsRelativeToCurrentTree
    ExcludePathsRelativeToCurrentTree := f.ExcludePathsRelativeToCurrentTree }, ?_, rfl, rfl, rfl⟩
  simp only [WithoutEntryInPaths, hinc, hexc, hff]

/-- The restore, for a callback that overwrites both lists and fails. -/
theorem WithoutEntryInPaths_restores_witness :
    ∃ f2, WithoutEntryInPaths PathMatch "dir".toList clobberingCallback
        (NewLsTreePathFilter [] ["dir/a".toList] ["dir/b".toList, "c".toList], [])
          = some (some "failed", f2, ['x']) ∧
      f2.IncludePathsRelativeToCurrentTree = ["dir/a".toList] ∧
      f2.ExcludePathsRelativeToCurrentTree = ["dir/b".toList, "c".toList] :=
  let ⟨f2, h, hi, he, _⟩ := WithoutEntryInPaths_restores PathMatch "dir".toList clobberingCallback
    (NewLsTreePathFilter [] ["dir/a".toList] ["dir/b".toList, "c".toList]) []
    ["a".toList] ["b".toList] (some "failed")
    { toPathFilter := ⟨[], ["dir/a".toList], ["dir/b".toList, "c".toList]⟩
      IncludePathsRelativeToCurrentTree := []
      ExcludePathsRelativeToCurrentTree := ["zzz".toList] } ['x']
    (by decide) (by decide) (by decide)
  ⟨f2, h, hi, he⟩

/-- C3, as stated, fails: for the glob `dir/./x` and the entry `dir` the code
returns `["x"]`, because `filepath.Join` cleans what it joins, while the
remaining segments joined by the separator are `./x`. -/
theorem shiftGlobsArray_not_plain_join :
    shiftGlobsArray PathMatch "dir".toList ["dir/./x".toList] = some ["x".toList] ∧
      ["dir/./x".toList].filterMap (shiftGlobSpec PathMatch "dir".toList) = ["./x".toList] := by
  decide

/-- C3, amended: when the matcher answers for the first segment of every glob,
`shiftGlobsArray` returns, in input order, one element for each glob whose
first segment matches the name: the glob unchanged when its first segment
contains `**`, otherwise `filepath.Join` of the remaining segments when there
is more than one segment; the other globs contribute nothing.  For a glob
whose remaining segments are plain names, `filepath.Join` of them is their
join by the separator, as the specification words it. -/
theorem shiftGlobsArray_eq_filterMap (pm : Matcher) (entryName : Str) (globs : List Str)
    (hpm : MatchesCleanly pm entryName globs) :
    shiftGlobsArray pm entryName globs = some (globs.filterMap (shiftGlob pm entryName)) ∧
      ∀ g ∈ globs, PlainRest g → shiftGlob pm entryName g = shiftGlobSpec pm entryName g := by
  refine ⟨?_, fun g _ hg => shiftGlob_eq_spec pm entryName g hg⟩
  simpa [shiftGlobsArray] using shiftGlobsLoop_eq pm entryName globs [] hpm

/-- The shift of the five globs of the specification by the entry `dir`. -/
theorem shiftGlobsArray_eq_filterMap_witness :
    shiftGlobsArray PathMatch "dir".toList
        ["dir/a/b".toList, "dir/x".toList, "other/y".toList, "**/z".toList, "dir".toList]
      = some ["a/b".toList, "x".toList, "**/z".toList] :=
  (shiftGlobsArray_eq_filterMap PathMatch "dir".toList
    ["dir/a/b".toList, "dir/x".toList, "other/y".toList, "**/z".toList, "dir".toList]
    (by decide)).1.trans (by decide)

/-- C4: `formatGlobs` passes each of `/**/*`, `/**`, `/*` to
`strings.TrimRight`, which takes a set of characters, so every trailing `/`
and `*` is removed: `src/a*` ends in none of the three suffixes and is
returned as `src/a`, while `src/**` gives `src`. -/
theorem formatGlobs_trims_characters :
    formatGlobs ["src/a*".toList] = ["src/a".toList] ∧
      formatTrims.all (fun suffix => !HasSuffix "src/a*".toList suffix) = true ∧
      formatGlobs ["src/**".toList] = ["src".toList] := by
  decide

theorem firstPart_eq_firstSegment (glob : Str) : firstPart glob = firstSegment glob := by
  unfold firstPart firstSegment
  induction glob with
  | nil => rfl
  | cons c cs ih =>
    by_cases hc : c = PathSeparator
    · simp [Split, hc]
    · have hne := Split_ne_nil PathSeparator cs
      cases hs : Split PathSeparator cs with
      | nil => exact absurd hs hne
      | cons p ps =>
        rw [hs] at ih
        simp only [List.headD_cons] at ih
        simp [Split, hc, hs, ih]

theorem partCount_eq_segmentCount (glob : Str) : partCount glob = segmentCount glob := by
  unfold partCount segmentCount
  induction glob with
  | nil => rfl
  | cons c cs ih =>
    by_cases hc : c = PathSeparator
    · simp [Split, hc, ih]
    · have hne := Split_ne_nil PathSeparator cs
      cases hs : Split PathSeparator cs with
      | nil => exact absurd hs hne
      | cons p ps =>
        rw [hs] at ih
        have hc2 : (c == PathSeparator) = false := by simpa using hc
        simp only [Split, hc, if_false, hs, List.length_cons, List.count_cons, hc2] at ih ⊢
        simpa using ih

theorem checkIncludes_examined (pm : Matcher) (entryName : Str) (globs : List Str)
    (st : Bool × Bool) (hpm : Answers pm entryName (examinedIncludes pm entryName globs)) :
    checkIncludes pm entryName globs st =
      some (st.1 || globs.any (fun g => pm (firstSegment g) entryName == some true),
        st.2 || globs.any (fun g => pm (firstSegment g) entryName == some true
            && decide (segmentCount g > 1))) := by
  induction globs generalizing st with
  | nil => simp [checkIncludes]
  | cons g rest ih =>
    obtain ⟨v, d⟩ := st
    unfold examinedIncludes at hpm
    unfold checkIncludes
    rw [firstPart_eq_firstSegment, partCount_eq_segmentCount]
    by_cases hstop : pm (firstSegment g) entryName = some true ∧ segmentCount g > 1
    · simp [hstop.1, hstop.2]
    · rw [if_neg hstop] at hpm
      have hg : pm (firstSegment g) entryName ≠ none := hpm g (List.mem_cons_self _ _)
      have hrest : Answers pm entryName (examinedIncludes pm entryName rest) :=
        fun x hx => hpm x (List.mem_cons_of_mem _ hx)
      cases hm : pm (firstSegment g) entryName with
      | none => exact absurd hm hg
      | some m =>
        cases m with
        | false => simp [ih _ hrest, hm]
        | true =>
          have hn : ¬ segmentCount g > 1 := fun h => hstop ⟨hm, h⟩
          simp [hn, ih _ hrest, hm]

theorem checkExcludes_examined_total (pm : Matcher) (entryName : Str) (globs : List Str)
    (st : Bool × Bool) (hpm : Answers pm entryName (examinedExcludes pm entryName globs))
    (e : Str) (he : e ∈ globs) (hone : segmentCount e = 1)
    (hm : pm (firstSegment e) entryName = some true) :
    checkExcludes pm entryName globs st = some (false, false) := by
  induction globs generalizing st with
  | nil => exact absurd he (List.not_mem_nil _)
  | cons g rest ih =>
    obtain ⟨v, d⟩ := st
    unfold examinedExcludes at hpm
    unfold checkExcludes
    rw [firstPart_eq_firstSegment, partCount_eq_segmentCount]
    by_cases hstop : pm (firstSegment g) entryName = some true ∧ segmentCount g = 1
    · simp [hstop.1, hstop.2]
    · rw [if_neg hstop] at hpm
      have hg : pm (firstSegment g) entryName ≠ none := hpm g (List.mem_cons_self _ _)
      have hrest : Answers pm entryName (examinedExcludes pm entryName rest) :=
        fun x hx => hpm x (List.mem_cons_of_mem _ hx)
      have hne : e ≠ g := by
        rintro rfl
        exact hstop ⟨hm, hone⟩
      have her : e ∈ rest := (List.mem_cons.1 he).resolve_left hne
      cases hgm : pm (firstSegment g) entryName with
      | none => exact absurd hgm hg
      | some m =>
        cases m with
        | false => simp [ih _ hrest her]
        | true =>
          have hn : segmentCount g > 1 := by
            have h1 : segmentCount g ≠ 1 := fun h => hstop ⟨hgm, h⟩
            unfold segmentCount at h1 ⊢
            omega
          simp [hn, ih _ hrest her]

theorem checkExcludes_unmatched (pm : Matcher) (entryName : Str) (globs : List Str)
    (st : Bool × Bool) (hno : ∀ g ∈ globs, pm (firstSegment g) entryName = some false) :
    checkExcludes pm entryName globs st = some st := by
  apply checkExcludes_no_match
  intro g hg
  rw [firstPart_eq_firstSegment]
  exact hno g hg

/-- C5, as stated, fails: an include pattern on which the matcher reports an
error (`[`, a character class that is never closed) makes `CheckEntry` panic
before the exclude patterns are read, although the exclude `src` has exactly
one segment, which matches the name. -/
theorem CheckEntry_total_exclude_panics :
    CheckEntry PathMatch (NewLsTreePathFilter [] ["[".toList] ["src".toList]) "src".toList
      = none ∧
    "src".toList ∈ (NewLsTreePathFilter [] ["[".toList] ["src".toList]).ExcludePathsRelativeToCurrentTree ∧
    segmentCount "src".toList = 1 ∧
    PathMatch (firstSegment "src".toList) "src".toList = some true := by
  decide

/-- C5, amended: when the matcher reports no error on the patterns that
`CheckEntry` examines (the include patterns up to the first one of more than
one segment whose first segment matches, the exclude patterns up to the first
one of exactly one segment that matches) and some exclude pattern has exactly
one segment, which matches the name, `CheckEntry` returns `(false, false)`. -/
theorem CheckEntry_total_exclude (pm : Matcher) (f : LsTreePathFilter) (entryName : Str)
    (hinc : Answers pm entryName
      (examinedIncludes pm entryName f.IncludePathsRelativeToCurrentTree))
    (hexc : Answers pm entryName
      (examinedExcludes pm entryName f.ExcludePathsRelativeToCurrentTree))
    (e : Str) (he : e ∈ f.ExcludePathsRelativeToCurrentTree) (hone : segmentCount e = 1)
    (hm : pm (firstSegment e) entryName = some true) :
    CheckEntry pm f entryName = some (false, false) := by
  unfold CheckEntry
  rw [checkIncludes_examined pm entryName _ _ hinc]
  exact checkExcludes_examined_total pm entryName _ _ hexc e he hone hm

/-- The total exclude `docs` wins over the include `docs/api` and the exclude
`docs/internal`; the patterns `[` stand after the ones at which the two scans
stop and are never given to the matcher. -/
theorem CheckEntry_total_exclude_witness :
    CheckEntry PathMatch
      (NewLsTreePathFilter [] ["src".toList, "docs/api".toList, "[".toList]
        ["docs/internal".toList, "doc?".toList, "[".toList, "docs".toList]) "docs".toList
      = some (false, false) :=
  CheckEntry_total_exclude PathMatch
    (NewLsTreePathFilter [] ["src".toList, "docs/api".toList, "[".toList]
      ["docs/internal".toList, "doc?".toList, "[".toList, "docs".toList]) "docs".toList
    (by decide) (by decide) "docs".toList (by decide) (by decide) (by decide)

/-- C6, as stated, fails: no exclude pattern has a first segment that matches
`src`, yet `CheckEntry` panics, because the matcher reports an error on the
exclude pattern `[` (a character class that is never closed). -/
theorem CheckEntry_includes_only_panics :
    CheckEntry PathMatch (NewLsTreePathFilter [] ["src".toList] ["[".toList]) "src".toList
      = none ∧
    ∀ g ∈ (NewLsTreePathFilter [] ["src".toList] ["[".toList]).ExcludePathsRelativeToCurrentTree,
      PathMatch (firstSegment g) "src".toList ≠ some true := by
  decide

/-- C6, amended: when the matcher reports no error on the include patterns
that `CheckEntry` examines and answers "no match" for the first segment of
every exclude pattern, `CheckEntry` returns `isValidEntry = true` exactly when
the first segment of some include pattern matches the name, and
`shouldGoInsideEntry = true` exactly when some include pattern of more than
one segment has a first segment that matches the name. -/
theorem CheckEntry_includes_only (pm : Matcher) (f : LsTreePathFilter) (entryName : Str)
    (hinc : Answers pm entryName
      (examinedIncludes pm entryName f.IncludePathsRelativeToCurrentTree))
    (hexc : ∀ g ∈ f.ExcludePathsRelativeToCurrentTree,
      pm (firstSegment g) entryName = some false) :
    ∃ isValidEntry shouldGoInsideEntry,
      CheckEntry pm f entryName = some (isValidEntry, shouldGoInsideEntry) ∧
      (isValidEntry = true ↔ ∃ g ∈ f.IncludePathsRelativeToCurrentTree,
        pm (firstSegment g) entryName = some true) ∧
      (shouldGoInsideEntry = true ↔ ∃ g ∈ f.IncludePathsRelativeToCurrentTree,
        segmentCount g > 1 ∧ pm (firstSegment g) entryName = some true) := by
  refine ⟨false || f.IncludePathsRelativeToCurrentTree.any
      (fun g => pm (firstSegment g) entryName == some true),
    false || f.IncludePathsRelativeToCurrentTree.any
      (fun g => pm (firstSegment g) entryName == some true && decide (segmentCount g > 1)),
    ?_, ?_, ?_⟩
  · unfold CheckEntry
    rw [checkIncludes_examined pm entryName _ _ hinc]
    exact checkExcludes_unmatched pm entryName _ _ hexc
  · simp
  · simp only [Bool.false_or, List.any_eq_true, Bool.and_eq_true, decide_eq_true_eq, beq_iff_eq]
    constructor
    · rintro ⟨g, hg, hm, hn⟩
      exact ⟨g, hg, hn, hm⟩
    · rintro ⟨g, hg, hn, hm⟩
      exact ⟨g, hg, hm, hn⟩

/-- The include `src/*.c` admits the entry `src` and asks to go inside it; the
pattern `[` stands after the one at which the scan of the includes stops. -/
theorem CheckEntry_includes_only_witness :
    CheckEntry PathMatch
      (NewLsTreePathFilter [] ["lib".toList, "src/*.c".toList, "[".toList] ["docs".toList])
      "src".toList = some (true, true) := by
  obtain ⟨isValidEntry, shouldGoInsideEntry, h, hv, hd⟩ :=
    CheckEntry_includes_only PathMatch
      (NewLsTreePathFilter [] ["lib".toList, "src/*.c".toList, "[".toList] ["docs".toList])
      "src".toList (by decide) (by decide)
  have hv1 : isValidEntry = true := hv.2 ⟨"src/*.c".toList, by decide, by decide⟩
  have hd1 : shouldGoInsideEntry = true :=
    hd.2 ⟨"src/*.c".toList, by decide, by decide, by decide⟩
  rw [h, hv1, hd1]

/-! ## The tree walk -/

theorem lsTreeChecksum_eq_forEntries (pm : Matcher) (IsFilePathValid : PathFilter → Str → Bool)
    (entries : List TreeEntry) (findEntry : Str → Except Err TreeEntry)
    (subtree submodule : Str → TreeResult) (treePath : Str) (w : Walk) :
    lsTreeChecksum pm IsFilePathValid (.mk entries findEntry subtree submodule) treePath w =
      forEntries (entryStep pm IsFilePathValid (lsTreeChecksumIn pm IsFilePathValid)
        subtree submodule treePath) entries w := by
  rw [lsTreeChecksum]
  rfl

theorem Tree.induction (P : Tree → Prop)
    (step : ∀ entries findEntry subtree submodule,
      (∀ name tree, subtree name = .ok tree → P tree) →
      (∀ path tree, submodule path = .ok tree → P tree) →
      P (.mk entries findEntry subtree submodule)) :
    ∀ tree, P tree := by
  intro tree
  refine @Tree.rec P (fun r => ∀ t, r = .ok t → P t) ?_ ?_ ?_ tree
  · intro entries findEntry subtree submodule ih1 ih2
    exact step entries findEntry subtree submodule (fun n t h => ih1 n t h)
      (fun n t h => ih2 n t h)
  · intro err t h
    cases h
  · intro t ih t1 h
    cases h
    exact ih

theorem forEntries_rel (I : Walk → Walk → Prop)
    (body1 body2 : TreeEntry → Walk → Option (Option Err × Walk))
    (l1 l2 : List TreeEntry)
    (hstep : List.Forall₂
      (fun x1 x2 => ∀ a b, I a b → StepRel I (body1 x1 a) (body2 x2 b)) l1 l2)
    (a b : Walk) (hI : I a b) :
    StepRel I (forEntries body1 l1 a) (forEntries body2 l2 b) := by
  induction hstep generalizing a b with
  | nil => exact ⟨rfl, hI⟩
  | @cons x1 x2 r1 r2 hx _ ih =>
    have h := hx a b hI
    unfold forEntries
    cases h1 : body1 x1 a with
    | none =>
      cases h2 : body2 x2 b with
      | none => trivial
      | some v2 => simp [h1, h2, StepRel] at h
    | some v1 =>
      cases h2 : body2 x2 b with
      | none => simp [h1, h2, StepRel] at h
      | some v2 =>
        obtain ⟨e1, a1⟩ := v1
        obtain ⟨e2, b1⟩ := v2
        rw [h1, h2] at h
        obtain ⟨he, hI1⟩ := h
        subst he
        cases e1 with
        | none => exact ih a1 b1 hI1
        | some err => exact ⟨rfl, hI1⟩

theorem CheckEntry_congr (pm : Matcher) (f1 f2 : LsTreePathFilter) (entryName : Str)
    (hinc : f1.IncludePathsRelativeToCurrentTree = f2.IncludePathsRelativeToCurrentTree)
    (hexc : f1.ExcludePathsRelativeToCurrentTree = f2.ExcludePathsRelativeToCurrentTree) :
    CheckEntry pm f1 entryName = CheckEntry pm f2 entryName := by
  unfold CheckEntry
  rw [hinc, hexc]

theorem restore_eq (f : LsTreePathFilter) (inc exc : List Str) (g : LsTreePathFilter)
    (hg : g = { f with IncludePathsRelativeToCurrentTree := inc
                       ExcludePathsRelativeToCurrentTree := exc }) :
    { g with IncludePathsRelativeToCurrentTree := f.IncludePathsRelativeToCurrentTree
             ExcludePathsRelativeToCurrentTree := f.ExcludePathsRelativeToCurrentTree } = f := by
  subst hg
  rfl

theorem WithoutEntryInPaths_rel (pm : Matcher) (entryName : Str)
    (ff1 ff2 : Walk → Option (Option Err × Walk)) (a b : Walk)
    (hinc : shiftGlobsArray pm entryName a.1.IncludePathsRelativeToCurrentTree =
      shiftGlobsArray pm entryName b.1.IncludePathsRelativeToCurrentTree)
    (hexc : shiftGlobsArray pm entryName a.1.ExcludePathsRelativeToCurrentTree =
      shiftGlobsArray pm entryName b.1.ExcludePathsRelativeToCurrentTree)
    (hff : ∀ inc exc,
      StepRel (SameBytes
          { a.1 with IncludePathsRelativeToCurrentTree := inc
                     ExcludePathsRelativeToCurrentTree := exc }
          { b.1 with IncludePathsRelativeToCurrentTree := inc
                     ExcludePathsRelativeToCurrentTree := exc })
        (ff1 ({ a.1 with IncludePathsRelativeToCurrentTree := inc
                         ExcludePathsRelativeToCurrentTree := exc }, a.2))
        (ff2 ({ b.1 with IncludePathsRelativeToCurrentTree := inc
                         ExcludePathsRelativeToCurrentTree := exc }, b.2))) :
    StepRel (SameBytes a.1 b.1) (WithoutEntryInPaths pm entryName ff1 a)
      (WithoutEntryInPaths pm entryName ff2 b) := by
  unfold WithoutEntryInPaths
  simp only []
  rw [hinc, hexc]
  cases shiftGlobsArray pm entryName b.1.IncludePathsRelativeToCurrentTree with
  | none => trivial
  | some inc =>
    cases shiftGlobsArray pm entryName b.1.ExcludePathsRelativeToCurrentTree with
    | none => trivial
    | some exc =>
      have h := hff inc exc
      simp only []
      cases h1 : ff1 ({ a.1 with IncludePathsRelativeToCurrentTree := inc
                                 ExcludePathsRelativeToCurrentTree := exc }, a.2) with
      | none =>
        cases h2 : ff2 ({ b.1 with IncludePathsRelativeToCurrentTree := inc
                                   ExcludePathsRelativeToCurrentTree := exc }, b.2) with
        | none => trivial
        | some v2 => simp [h1, h2, StepRel] at h
      | some v1 =>
        cases h2 : ff2 ({ b.1 with IncludePathsRelativeToCurrentTree := inc
                                   ExcludePathsRelativeToCurrentTree := exc }, b.2) with
        | none => simp [h1, h2, StepRel] at h
        | some v2 =>
          obtain ⟨e1, a1, s1⟩ := v1
          obtain ⟨e2, b1, s2⟩ := v2
          rw [h1, h2] at h
          obtain ⟨he, ha, hb, hs⟩ := h
          simp only at ha hb hs
          exact ⟨he, restore_eq a.1 inc exc a1 ha, restore_eq b.1 inc exc b1 hb, hs⟩

theorem checkedEntry_rel (pm : Matcher) (entry : TreeEntry)
    (descend1 descend2 : Walk → Option (Option Err × Walk)) (a b : Walk)
    (hbytes : a.2 = b.2)
    (hce : CheckEntry pm a.1 entry.Name = CheckEntry pm b.1 entry.Name)
    (hdesc : StepRel (SameBytes a.1 b.1) (descend1 a) (descend2 b)) :
    StepRel (SameBytes a.1 b.1) (checkedEntry pm entry descend1 a)
      (checkedEntry pm entry descend2 b) := by
  unfold checkedEntry
  rw [hce]
  cases CheckEntry pm b.1 entry.Name with
  | none => trivial
  | some r =>
    obtain ⟨isValid, shouldGoInside⟩ := r
    cases isValid with
    | false => exact ⟨rfl, rfl, rfl, hbytes⟩
    | true =>
      cases shouldGoInside with
      | false => exact ⟨rfl, rfl, rfl, by simp [hbytes]⟩
      | true => exact hdesc

theorem descend_rel (pm : Matcher) (entryName : Str) (looked : TreeResult) (path : Str)
    (recur1 recur2 : TreeResult → Str → Walk → Option (Option Err × Walk)) (a b : Walk)
    (hbytes : a.2 = b.2)
    (hinc : shiftGlobsArray pm entryName a.1.IncludePathsRelativeToCurrentTree =
      shiftGlobsArray pm entryName b.1.IncludePathsRelativeToCurrentTree)
    (hexc : shiftGlobsArray pm entryName a.1.ExcludePathsRelativeToCurrentTree =
      shiftGlobsArray pm entryName b.1.ExcludePathsRelativeToCurrentTree)
    (hrec : ∀ inc exc,
      StepRel (SameBytes
          { a.1 with IncludePathsRelativeToCurrentTree := inc
                     ExcludePathsRelativeToCurrentTree := exc }
          { b.1 with IncludePathsRelativeToCurrentTree := inc
                     ExcludePathsRelativeToCurrentTree := exc })
        (recur1 looked path
          ({ a.1 with IncludePathsRelativeToCurrentTree := inc
                      ExcludePathsRelativeToCurrentTree := exc }, a.2))
        (recur2 looked path
          ({ b.1 with IncludePathsRelativeToCurrentTree := inc
                      ExcludePathsRelativeToCurrentTree := exc }, b.2))) :
    StepRel (SameBytes a.1 b.1)
      (descendInto pm entryName looked (fun w1 => recur1 looked path w1) a)
      (descendInto pm entryName looked (fun w1 => recur2 looked path w1) b) := by
  unfold descendInto
  cases hl : looked with
  | error err => exact ⟨rfl, rfl, rfl, hbytes⟩
  | ok t =>
    rw [hl] at hrec
    exact WithoutEntryInPaths_rel pm entryName _ _ a b hinc hexc hrec

theorem entryStep_rel (pm : Matcher) (valid1 valid2 : PathFilter → Str → Bool)
    (recur1 recur2 : TreeResult → Str → Walk → Option (Option Err × Walk))
    (subtree submodule : Str → TreeResult) (treePath : Str) (entry : TreeEntry) (a b : Walk)
    (hbytes : a.2 = b.2)
    (hce : entry.Mode = .Dir ∨ entry.Mode = .Submodule →
      CheckEntry pm a.1 entry.Name = CheckEntry pm b.1 entry.Name)
    (hinc : entry.Mode = .Dir ∨ entry.Mode = .Submodule →
      shiftGlobsArray pm entry.Name a.1.IncludePathsRelativeToCurrentTree =
        shiftGlobsArray pm entry.Name b.1.IncludePathsRelativeToCurrentTree)
    (hexc : entry.Mode = .Dir ∨ entry.Mode = .Submodule →
      shiftGlobsArray pm entry.Name a.1.ExcludePathsRelativeToCurrentTree =
        shiftGlobsArray pm entry.Name b.1.ExcludePathsRelativeToCurrentTree)
    (hvalid : entry.Mode ≠ .Dir → entry.Mode ≠ .Submodule →
      valid1 a.1.toPathFilter (Join [treePath, entry.Name]) =
        valid2 b.1.toPathFilter (Join [treePath, entry.Name]))
    (hrec : ∀ looked inc exc,
      (entry.Mode = .Dir ∧ looked = subtree entry.Name) ∨
        (entry.Mode = .Submodule ∧ looked = submodule (Join [treePath, entry.Name])) →
      StepRel (SameBytes
          { a.1 with IncludePathsRelativeToCurrentTree := inc
                     ExcludePathsRelativeToCurrentTree := exc }
          { b.1 with IncludePathsRelativeToCurrentTree := inc
                     ExcludePathsRelativeToCurrentTree := exc })
        (recur1 looked (Join [treePath, entry.Name])
          ({ a.1 with IncludePathsRelativeToCurrentTree := inc
                      ExcludePathsRelativeToCurrentTree := exc }, a.2))
        (recur2 looked (Join [treePath, entry.Name])
          ({ b.1 with IncludePathsRelativeToCurrentTree := inc
                      ExcludePathsRelativeToCurrentTree := exc }, b.2))) :
    StepRel (SameBytes a.1 b.1)
      (entryStep pm valid1 recur1 subtree submodule treePath entry a)
      (entryStep pm valid2 recur2 subtree submodule treePath entry b) := by
  have hfile : StepRel (SameBytes a.1 b.1)
      (if valid1 a.1.toPathFilter (Join [treePath, entry.Name]) then
        some (none, (a.1, a.2 ++ entry.Hash.String)) else some (none, a))
      (if valid2 b.1.toPathFilter (Join [treePath, entry.Name]) then
        some (none, (b.1, b.2 ++ entry.Hash.String)) else some (none, b)) →
      entry.Mode ≠ .Dir → entry.Mode ≠ .Submodule →
      StepRel (SameBytes a.1 b.1)
        (entryStep pm valid1 recur1 subtree submodule treePath entry a)
        (entryStep pm valid2 recur2 subtree submodule treePath entry b) := by
    intro h h1 h2
    unfold entryStep
    cases hm : entry.Mode <;> first | exact absurd hm h1 | exact absurd hm h2 | exact h
  by_cases hd : entry.Mode = .Dir
  · unfold entryStep
    simp only [hd]
    exact checkedEntry_rel pm entry _ _ a b hbytes (hce (Or.inl hd))
      (descend_rel pm entry.Name (subtree entry.Name) (Join [treePath, entry.Name])
        recur1 recur2 a b hbytes (hinc (Or.inl hd)) (hexc (Or.inl hd))
        (fun inc exc => hrec _ inc exc (Or.inl ⟨hd, rfl⟩)))
  · by_cases hs : entry.Mode = .Submodule
    · unfold entryStep
      simp only [hs]
      exact checkedEntry_rel pm entry _ _ a b hbytes (hce (Or.inr hs))
        (descend_rel pm entry.Name (submodule (Join [treePath, entry.Name]))
          (Join [treePath, entry.Name]) recur1 recur2 a b hbytes (hinc (Or.inr hs))
          (hexc (Or.inr hs)) (fun inc exc => hrec _ inc exc (Or.inr ⟨hs, rfl⟩)))
    · refine hfile ?_ hd hs
      rw [hvalid hd hs]
      cases valid2 b.1.toPathFilter (Join [treePath, entry.Name]) with
      | false => exact ⟨rfl, rfl, rfl, hbytes⟩
      | true => exact ⟨rfl, rfl, rfl, by simp [hbytes]⟩

theorem lsTreeChecksumIn_ok (pm : Matcher) (valid : PathFilter → Str → Bool) (tree : Tree)
    (treePath : Str) (w : Walk) :
    lsTreeChecksumIn pm valid (.ok tree) treePath w = lsTreeChecksum pm valid tree treePath w := by
  rw [lsTreeChecksumIn]

theorem lsTreeChecksumIn_error (pm : Matcher) (valid : PathFilter → Str → Bool) (err : Err)
    (treePath : Str) (w : Walk) :
    lsTreeChecksumIn pm valid (.error err) treePath w = some (some err, w) := by
  rw [lsTreeChecksumIn]

theorem mem_filePaths_of_entry (entries : List TreeEntry) (findEntry : Str → Except Err TreeEntry)
    (subtree submodule : Str → TreeResult) (treePath : Str) (entry : TreeEntry)
    (hentry : entry ∈ entries) (q : Str)
    (hq : q ∈ (match entry.Mode with
      | .Dir => TreeResult.filePaths (subtree entry.Name) (Join [treePath, entry.Name])
      | .Submodule =>
        TreeResult.filePaths (submodule (Join [treePath, entry.Name]))
          (Join [treePath, entry.Name])
      | _ => [Join [treePath, entry.Name]])) :
    q ∈ (Tree.mk entries findEntry subtree submodule).filePaths treePath := by
  rw [Tree.filePaths]
  exact List.mem_flatMap.2 ⟨entry, hentry, hq⟩

theorem mem_filePaths_file (entries : List TreeEntry) (findEntry : Str → Except Err TreeEntry)
    (subtree submodule : Str → TreeResult) (treePath : Str) (entry : TreeEntry)
    (hentry : entry ∈ entries) (hd : entry.Mode ≠ .Dir) (hs : entry.Mode ≠ .Submodule) :
    Join [treePath, entry.Name] ∈
      (Tree.mk entries findEntry subtree submodule).filePaths treePath := by
  apply mem_filePaths_of_entry entries findEntry subtree submodule treePath entry hentry
  cases hm : entry.Mode <;> first | exact absurd hm hd | exact absurd hm hs | simp

theorem mem_filePaths_inside (entries : List TreeEntry) (findEntry : Str → Except Err TreeEntry)
    (subtree submodule : Str → TreeResult) (treePath : Str) (entry : TreeEntry)
    (hentry : entry ∈ entries) (looked : TreeResult) (tree : Tree) (hl : looked = .ok tree)
    (hmode : (entry.Mode = .Dir ∧ looked = subtree entry.Name) ∨
      (entry.Mode = .Submodule ∧ looked = submodule (Join [treePath, entry.Name])))
    (q : Str) (hq : q ∈ tree.filePaths (Join [treePath, entry.Name])) :
    q ∈ (Tree.mk entries findEntry subtree submodule).filePaths treePath := by
  apply mem_filePaths_of_entry entries findEntry subtree submodule treePath entry hentry
  rcases hmode with ⟨hm, hlk⟩ | ⟨hm, hlk⟩
  · simp only [hm]
    rw [← hlk, hl, TreeResult.filePaths]
    exact hq
  · simp only [hm]
    rw [← hlk, hl, TreeResult.filePaths]
    exact hq

theorem lsTreeChecksum_rel (pm : Matcher) (valid1 valid2 : PathFilter → Str → Bool)
    (pf1 pf2 : PathFilter) (tree : Tree) :
    ∀ (treePath : Str) (a b : Walk),
      a.1.toPathFilter = pf1 → b.1.toPathFilter = pf2 →
      a.1.IncludePathsRelativeToCurrentTree = b.1.IncludePathsRelativeToCurrentTree →
      a.1.ExcludePathsRelativeToCurrentTree = b.1.ExcludePathsRelativeToCurrentTree →
      a.2 = b.2 →
      (∀ q ∈ tree.filePaths treePath, valid1 pf1 q = valid2 pf2 q) →
      StepRel (SameBytes a.1 b.1) (lsTreeChecksum pm valid1 tree treePath a)
        (lsTreeChecksum pm valid2 tree treePath b) := by
  induction tree using Tree.induction with
  | step entries findEntry subtree submodule ih1 ih2 =>
    intro treePath a b hpa hpb hinc hexc hbytes hvalid
    rw [lsTreeChecksum_eq_forEntries, lsTreeChecksum_eq_forEntries]
    refine forEntries_rel (SameBytes a.1 b.1) _ _ entries entries ?_ a b ⟨rfl, rfl, hbytes⟩
    refine List.forall₂_same.2 ?_
    intro entry hentry a1 b1 hI
    obtain ⟨ha1, hb1, hbytes1⟩ := hI
    have key := entryStep_rel pm valid1 valid2 (lsTreeChecksumIn pm valid1)
      (lsTreeChecksumIn pm valid2) subtree submodule treePath entry a1 b1 hbytes1
      (fun _ => CheckEntry_congr pm a1.1 b1.1 entry.Name (by rw [ha1, hb1, hinc])
        (by rw [ha1, hb1, hexc]))
      (fun _ => by rw [ha1, hb1, hinc])
      (fun _ => by rw [ha1, hb1, hexc])
      (fun hd hs => by
        rw [ha1, hb1, hpa, hpb]
        exact hvalid _ (mem_filePaths_file entries findEntry subtree submodule treePath
          entry hentry hd hs))
      (by
        intro looked inc exc hmode
        cases hl : looked with
        | error err =>
          rw [lsTreeChecksumIn_error, lsTreeChecksumIn_error]
          exact ⟨rfl, rfl, rfl, hbytes1⟩
        | ok t =>
          rw [lsTreeChecksumIn_ok, lsTreeChecksumIn_ok]
          have hsub : ∀ q ∈ t.filePaths (Join [treePath, entry.Name]),
              valid1 pf1 q = valid2 pf2 q := fun q hq =>
            hvalid q (mem_filePaths_inside entries findEntry subtree submodule treePath
              entry hentry looked t hl hmode q hq)
          have ih : ∀ (treePath : Str) (a b : Walk),
              a.1.toPathFilter = pf1 → b.1.toPathFilter = pf2 →
              a.1.IncludePathsRelativeToCurrentTree = b.1.IncludePathsRelativeToCurrentTree →
              a.1.ExcludePathsRelativeToCurrentTree = b.1.ExcludePathsRelativeToCurrentTree →
              a.2 = b.2 →
              (∀ q ∈ t.filePaths treePath, valid1 pf1 q = valid2 pf2 q) →
              StepRel (SameBytes a.1 b.1) (lsTreeChecksum pm valid1 t treePath a)
                (lsTreeChecksum pm valid2 t treePath b) := by
            rcases hmode with ⟨_, hlk⟩ | ⟨_, hlk⟩
            · exact ih1 entry.Name t (by rw [← hlk, hl])
            · exact ih2 (Join [treePath, entry.Name]) t (by rw [← hlk, hl])
          exact ih (Join [treePath, entry.Name]) _ _ (by rw [ha1, hpa]) (by rw [hb1, hpb])
            rfl rfl hbytes1 hsub)
    rw [ha1, hb1] at key
    exact key

/-! ## A directory under a total exclude -/

theorem checkExcludes_excluded (pm : Matcher) (entryName : Str) (globs : List Str)
    (st : Bool × Bool) (e : Str) (he : e ∈ globs) (hone : partCount e = 1)
    (hm : pm (firstPart e) entryName = some true) :
    checkExcludes pm entryName globs st = none ∨
      checkExcludes pm entryName globs st = some (false, false) := by
  induction globs generalizing st with
  | nil => exact absurd he (List.not_mem_nil _)
  | cons g rest ih =>
    obtain ⟨v, d⟩ := st
    cases hgm : pm (firstPart g) entryName with
    | none => simp [checkExcludes, hgm]
    | some m =>
      cases m with
      | false =>
        have hne : e ≠ g := by
          rintro rfl
          rw [hm] at hgm
          cases hgm
        have her : e ∈ rest := (List.mem_cons.1 he).resolve_left hne
        simpa [checkExcludes, hgm] using ih (v, d) her
      | true =>
        by_cases hn : partCount g > 1
        · have hne : e ≠ g := by
            rintro rfl
            omega
          have her : e ∈ rest := (List.mem_cons.1 he).resolve_left hne
          simpa [checkExcludes, hgm, hn] using ih (true, true) her
        · simp [checkExcludes, hgm, hn]

theorem CheckEntry_excluded (pm : Matcher) (f : LsTreePathFilter) (entryName : Str)
    (e : Str) (he : e ∈ f.ExcludePathsRelativeToCurrentTree) (hone : partCount e = 1)
    (hm : pm (firstPart e) entryName = some true) :
    CheckEntry pm f entryName = none ∨ CheckEntry pm f entryName = some (false, false) := by
  unfold CheckEntry
  cases checkIncludes pm entryName f.IncludePathsRelativeToCurrentTree (false, false) with
  | none => exact Or.inl rfl
  | some st => exact checkExcludes_excluded pm entryName _ st e he hone hm

theorem checkedEntry_excluded (pm : Matcher) (entry1 entry2 : TreeEntry)
    (descend1 descend2 : Walk → Option (Option Err × Walk)) (w : Walk)
    (hname : entry1.Name = entry2.Name)
    (hce : CheckEntry pm w.1 entry1.Name = none ∨
      CheckEntry pm w.1 entry1.Name = some (false, false)) :
    checkedEntry pm entry1 descend1 w = checkedEntry pm entry2 descend2 w ∧
      (checkedEntry pm entry1 descend1 w = none ∨
        checkedEntry pm entry1 descend1 w = some (none, w)) := by
  unfold checkedEntry
  rw [← hname]
  rcases hce with h | h <;> simp [h]

theorem WithoutEntryInPaths_exclude (pm : Matcher) (entryName : Str)
    (ff : Walk → Option (Option Err × Walk)) (a : Walk) (r : Option Err × Walk)
    (h : WithoutEntryInPaths pm entryName ff a = some r) :
    r.2.1.ExcludePathsRelativeToCurrentTree = a.1.ExcludePathsRelativeToCurrentTree := by
  unfold WithoutEntryInPaths at h
  simp only [] at h
  split at h
  · cases h
  · split at h
    · cases h
    · split at h
      · cases h
      · cases h
        rfl

theorem entryStep_exclude (pm : Matcher) (valid : PathFilter → Str → Bool)
    (recur : TreeResult → Str → Walk → Option (Option Err × Walk))
    (subtree submodule : Str → TreeResult) (treePath : Str) (entry : TreeEntry) (a : Walk)
    (r : Option Err × Walk)
    (h : entryStep pm valid recur subtree submodule treePath entry a = some r) :
    r.2.1.ExcludePathsRelativeToCurrentTree = a.1.ExcludePathsRelativeToCurrentTree := by
  have hchecked : ∀ (looked : TreeResult) (ff : Walk → Option (Option Err × Walk)),
      checkedEntry pm entry (descendInto pm entry.Name looked ff) a = some r →
      r.2.1.ExcludePathsRelativeToCurrentTree = a.1.ExcludePathsRelativeToCurrentTree := by
    intro looked ff hc
    unfold checkedEntry at hc
    split at hc
    · cases hc
    · split_ifs at hc
      · cases hc
        rfl
      · cases hc
        rfl
      · unfold descendInto at hc
        split at hc
        · cases hc
          rfl
        · exact WithoutEntryInPaths_exclude pm entry.Name ff a r hc
  unfold entryStep at h
  split at h
  · exact hchecked _ _ h
  · exact hchecked _ _ h
  · split_ifs at h
    · cases h
      rfl
    · cases h
      rfl

theorem entryStep_excluded (pm : Matcher) (valid : PathFilter → Str → Bool)
    (recur : TreeResult → Str → Walk → Option (Option Err × Walk))
    (subtree1 subtree2 submodule1 submodule2 : Str → TreeResult) (treePath : Str)
    (entry1 entry2 : TreeEntry) (w : Walk)
    (hname : entry1.Name = entry2.Name) (hmode : entry1.Mode = entry2.Mode)
    (hdir : entry1.Mode = .Dir ∨ entry1.Mode = .Submodule)
    (hce : CheckEntry pm w.1 entry1.Name = none ∨
      CheckEntry pm w.1 entry1.Name = some (false, false)) :
    entryStep pm valid recur subtree1 submodule1 treePath entry1 w =
      entryStep pm valid recur subtree2 submodule2 treePath entry2 w := by
  unfold entryStep
  rw [← hmode]
  rcases hdir with hd | hd
  · simp only [hd]
    exact (checkedEntry_excluded pm entry1 entry2 _ _ w hname hce).1
  · simp only [hd]
    exact (checkedEntry_excluded pm entry1 entry2 _ _ w hname hce).1

/-- C9: when some pattern of `ExcludePathsRelativeToCurrentTree` has exactly
one segment, which matches the name `d`, `lsTreeChecksum` gives the same
outcome (error, filter and bytes written to the hash) on two trees that differ
only in the object id of the directory entry `d` and in what the lookups
return for `d`. -/
theorem lsTreeChecksum_excluded_directory (pm : Matcher)
    (IsFilePathValid : PathFilter → Str → Bool)
    (before after : List TreeEntry) (d : Str) (id1 id2 : Hash)
    (findEntry1 findEntry2 : Str → Except Err TreeEntry)
    (subtree1 subtree2 submodule1 submodule2 : Str → TreeResult)
    (treePath : Str) (w : Walk) (e : Str)
    (he : e ∈ w.1.ExcludePathsRelativeToCurrentTree) (hone : partCount e = 1)
    (hm : pm (firstPart e) d = some true)
    (hsubtree : ∀ name, name ≠ d → subtree1 name = subtree2 name)
    (hsubmodule : ∀ name, name ≠ d →
      submodule1 (Join [treePath, name]) = submodule2 (Join [treePath, name])) :
    lsTreeChecksum pm IsFilePathValid
        (.mk (before ++ ⟨d, .Dir, id1⟩ :: after) findEntry1 subtree1 submodule1) treePath w =
      lsTreeChecksum pm IsFilePathValid
        (.mk (before ++ ⟨d, .Dir, id2⟩ :: after) findEntry2 subtree2 submodule2) treePath w := by
  rw [lsTreeChecksum_eq_forEntries, lsTreeChecksum_eq_forEntries]
  let I : Walk → Walk → Prop := fun a b =>
    a = b ∧ a.1.ExcludePathsRelativeToCurrentTree = w.1.ExcludePathsRelativeToCurrentTree
  have hout : ∀ (body : TreeEntry → Walk → Option (Option Err × Walk)) (x : TreeEntry)
      (a : Walk),
      a.1.ExcludePathsRelativeToCurrentTree = w.1.ExcludePathsRelativeToCurrentTree →
      (∀ r, body x a = some r →
        r.2.1.ExcludePathsRelativeToCurrentTree = a.1.ExcludePathsRelativeToCurrentTree) →
      StepRel I (body x a) (body x a) := by
    intro body x a ha hr
    cases hb : body x a with
    | none => trivial
    | some r => exact ⟨rfl, rfl, (hr r hb).trans ha⟩
  have hexcl : ∀ a : Walk,
      a.1.ExcludePathsRelativeToCurrentTree = w.1.ExcludePathsRelativeToCurrentTree →
      CheckEntry pm a.1 d = none ∨ CheckEntry pm a.1 d = some (false, false) :=
    fun a ha => CheckEntry_excluded pm a.1 d e (by rw [ha]; exact he) hone hm
  have hsame : ∀ x : TreeEntry, ∀ a b, I a b →
      StepRel I
        (entryStep pm IsFilePathValid (lsTreeChecksumIn pm IsFilePathValid)
          subtree1 submodule1 treePath x a)
        (entryStep pm IsFilePathValid (lsTreeChecksumIn pm IsFilePathValid)
          subtree2 submodule2 treePath x b) := by
    rintro x a b ⟨rfl, ha⟩
    have heq : entryStep pm IsFilePathValid (lsTreeChecksumIn pm IsFilePathValid)
          subtree1 submodule1 treePath x a =
        entryStep pm IsFilePathValid (lsTreeChecksumIn pm IsFilePathValid)
          subtree2 submodule2 treePath x a := by
      by_cases hx : x.Name = d
      · by_cases hdir : x.Mode = .Dir ∨ x.Mode = .Submodule
        · exact entryStep_excluded pm IsFilePathValid _ _ _ _ _ treePath x x a rfl rfl hdir
            (by rw [hx]; exact hexcl a ha)
        · have h1 : x.Mode ≠ .Dir := fun h => hdir (Or.inl h)
          have h2 : x.Mode ≠ .Submodule := fun h => hdir (Or.inr h)
          unfold entryStep
          cases hmode : x.Mode <;> first | exact absurd hmode h1 | exact absurd hmode h2 | rfl
      · unfold entryStep
        rw [hsubtree _ hx, hsubmodule _ hx]
    rw [heq]
    exact hout _ x a ha (fun r hr => entryStep_exclude pm IsFilePathValid _ _ _ treePath x a r hr)
  have hd : ∀ a b, I a b →
      StepRel I
        (entryStep pm IsFilePathValid (lsTreeChecksumIn pm IsFilePathValid)
          subtree1 submodule1 treePath ⟨d, .Dir, id1⟩ a)
        (entryStep pm IsFilePathValid (lsTreeChecksumIn pm IsFilePathValid)
          subtree2 submodule2 treePath ⟨d, .Dir, id2⟩ b) := by
    rintro a b ⟨rfl, ha⟩
    rw [entryStep_excluded pm IsFilePathValid _ subtree1 subtree2 submodule1 submodule2
      treePath ⟨d, .Dir, id1⟩ ⟨d, .Dir, id2⟩ a rfl rfl (Or.inl rfl) (hexcl a ha)]
    exact hout (entryStep pm IsFilePathValid (lsTreeChecksumIn pm IsFilePathValid)
      subtree2 submodule2 treePath) ⟨d, .Dir, id2⟩ a ha
      (fun r hr => entryStep_exclude pm IsFilePathValid _ _ _ treePath _ a r hr)
  have hlists : List.Forall₂
      (fun x1 x2 => ∀ a b, I a b →
        StepRel I
          (entryStep pm IsFilePathValid (lsTreeChecksumIn pm IsFilePathValid)
            subtree1 submodule1 treePath x1 a)
          (entryStep pm IsFilePathValid (lsTreeChecksumIn pm IsFilePathValid)
            subtree2 submodule2 treePath x2 b))
      (before ++ ⟨d, .Dir, id1⟩ :: after) (before ++ ⟨d, .Dir, id2⟩ :: after) :=
    List.rel_append (List.forall₂_same.2 (fun x _ => hsame x))
      (List.Forall₂.cons hd (List.forall₂_same.2 (fun x _ => hsame x)))
  have hrel := forEntries_rel I _ _ _ _ hlists w w ⟨rfl, rfl⟩
  revert hrel
  cases forEntries (entryStep pm IsFilePathValid (lsTreeChecksumIn pm IsFilePathValid)
      subtree1 submodule1 treePath) (before ++ ⟨d, .Dir, id1⟩ :: after) w with
  | none =>
    cases forEntries (entryStep pm IsFilePathValid (lsTreeChecksumIn pm IsFilePathValid)
        subtree2 submodule2 treePath) (before ++ ⟨d, .Dir, id2⟩ :: after) w with
    | none => intro _; rfl
    | some r2 => intro h; exact absurd h (by simp [StepRel])
  | some r1 =>
    cases forEntries (entryStep pm IsFilePathValid (lsTreeChecksumIn pm IsFilePathValid)
        subtree2 submodule2 treePath) (before ++ ⟨d, .Dir, id2⟩ :: after) w with
    | none => intro h; exact absurd h (by simp [StepRel])
    | some r2 =>
      obtain ⟨e1, a1⟩ := r1
      obtain ⟨e2, a2⟩ := r2
      rintro ⟨rfl, rfl, -⟩
      rfl

/-- With the exclude `docs`, the scenario tree gives the same outcome for two
ids of `docs` and of `docs/x.md`. -/
theorem lsTreeChecksum_excluded_directory_witness :
    lsTreeChecksum PathMatch IsFilePathValid
        (scenarioTree (Hash.replicate 1) (Hash.replicate 2) (Hash.replicate 3)
          (Hash.replicate 4) (Hash.replicate 5)) []
        (NewLsTreePathFilter [] ["src".toList] ["docs".toList], []) =
      lsTreeChecksum PathMatch IsFilePathValid
        (scenarioTree (Hash.replicate 9) (Hash.replicate 2) (Hash.replicate 8)
          (Hash.replicate 4) (Hash.replicate 5)) []
        (NewLsTreePathFilter [] ["src".toList] ["docs".toList], []) :=
  lsTreeChecksum_excluded_directory PathMatch IsFilePathValid []
    [⟨"src".toList, .Dir, Hash.replicate 2⟩] "docs".toList (Hash.replicate 1) (Hash.replicate 9)
    (fun _ => .error "entry not found") (fun _ => .error "entry not found")
    (scenarioSubtree (Hash.replicate 3) (Hash.replicate 4) (Hash.replicate 5))
    (scenarioSubtree (Hash.replicate 8) (Hash.replicate 4) (Hash.replicate 5))
    (fun _ => .error "submodule not found") (fun _ => .error "submodule not found") []
    (NewLsTreePathFilter [] ["src".toList] ["docs".toList], []) "docs".toList
    (by decide) (by decide) (by decide)
    (fun name hname => by
      unfold scenarioSubtree
      rw [if_neg hname, if_neg hname])
    (fun _ _ => rfl)

/-! ## Adding an exclude pattern -/

theorem formatGlobs_append (globs : List Str) (added : Str) :
    formatGlobs (globs ++ [added]) =
      formatGlobs globs ++ (if formatGlob added ≠ [] then [formatGlob added] else []) := by
  simp only [formatGlobs, formatGlobsLoop_eq, List.nil_append, List.filterMap_append]
  by_cases h : formatGlob added = []
  · simp [List.filterMap_cons, h]
  · simp [List.filterMap_cons, h]

theorem StepRel_SameBytes_out (f1 f2 : LsTreePathFilter)
    (r1 r2 : Option (Option Err × Walk)) (h : StepRel (SameBytes f1 f2) r1 r2) :
    walkResult r1 = walkResult r2 := by
  cases r1 with
  | none =>
    cases r2 with
    | none => rfl
    | some v2 => exact absurd h (by simp [StepRel])
  | some v1 =>
    cases r2 with
    | none => exact absurd h (by simp [StepRel])
    | some v2 =>
      obtain ⟨e1, a1⟩ := v1
      obtain ⟨e2, a2⟩ := v2
      obtain ⟨rfl, -, -, hb⟩ := h
      cases e1 with
      | none => simp [walkResult, hb]
      | some err => rfl

theorem LsTreeChecksum_valid_congr (pm : Matcher) (valid1 valid2 : PathFilter → Str → Bool)
    (repository : Repository) (pathFilter : LsTreePathFilter) (commit : Commit) (tree : Tree)
    (hresolve : resolveTree repository pathFilter = .ok (commit, tree))
    (hvalid : ∀ q ∈ tree.filePaths pathFilter.toPathFilter.BasePath,
      valid1 pathFilter.toPathFilter q = valid2 pathFilter.toPathFilter q) :
    LsTreeChecksum pm valid1 repository pathFilter =
      LsTreeChecksum pm valid2 repository pathFilter := by
  unfold LsTreeChecksum
  simp only [hresolve]
  split_ifs
  · rfl
  · exact StepRel_SameBytes_out pathFilter pathFilter _ _
      (lsTreeChecksum_rel pm valid1 valid2 pathFilter.toPathFilter pathFilter.toPathFilter tree
        pathFilter.toPathFilter.BasePath (pathFilter, []) (pathFilter, []) rfl rfl rfl rfl rfl
        hvalid)

theorem resolveTree_congr (repository : Repository) (f1 f2 : LsTreePathFilter)
    (h : f1.toPathFilter.BasePath = f2.toPathFilter.BasePath) :
    resolveTree repository f1 = resolveTree repository f2 := by
  unfold resolveTree
  rw [h]

theorem shiftedFilter_restore (pm : Matcher) (entryName : Str) (f f1 : LsTreePathFilter)
    (h : shiftedFilter pm entryName f = some f1) :
    { f1 with IncludePathsRelativeToCurrentTree := f.IncludePathsRelativeToCurrentTree
              ExcludePathsRelativeToCurrentTree := f.ExcludePathsRelativeToCurrentTree } = f ∧
      f1.toPathFilter = f.toPathFilter := by
  unfold shiftedFilter at h
  cases hi : shiftGlobsArray pm entryName f.IncludePathsRelativeToCurrentTree with
  | none => simp [hi] at h
  | some inc =>
    cases he : shiftGlobsArray pm entryName f.ExcludePathsRelativeToCurrentTree with
    | none => simp [hi, he] at h
    | some exc =>
      simp only [hi, he, Option.some.injEq] at h
      subst h
      exact ⟨rfl, rfl⟩

theorem WithoutEntryInPaths_none (pm : Matcher) (entryName : Str)
    (ff : Walk → Option (Option Err × Walk)) (w : Walk)
    (h : shiftedFilter pm entryName w.1 = none) :
    WithoutEntryInPaths pm entryName ff w = none := by
  unfold shiftedFilter at h
  unfold WithoutEntryInPaths
  simp only []
  cases hi : shiftGlobsArray pm entryName w.1.IncludePathsRelativeToCurrentTree with
  | none => rfl
  | some inc =>
    cases he : shiftGlobsArray pm entryName w.1.ExcludePathsRelativeToCurrentTree with
    | none => rfl
    | some exc => simp [hi, he] at h

theorem WithoutEntryInPaths_some (pm : Matcher) (entryName : Str)
    (ff : Walk → Option (Option Err × Walk)) (w : Walk) (f1 : LsTreePathFilter)
    (h : shiftedFilter pm entryName w.1 = some f1) :
    WithoutEntryInPaths pm entryName ff w =
      (ff (f1, w.2)).map (fun r =>
        (r.1, { r.2.1 with
          IncludePathsRelativeToCurrentTree := w.1.IncludePathsRelativeToCurrentTree
          ExcludePathsRelativeToCurrentTree := w.1.ExcludePathsRelativeToCurrentTree }, r.2.2)) := by
  unfold shiftedFilter at h
  unfold WithoutEntryInPaths
  simp only []
  cases hi : shiftGlobsArray pm entryName w.1.IncludePathsRelativeToCurrentTree with
  | none => simp [hi] at h
  | some inc =>
    cases he : shiftGlobsArray pm entryName w.1.ExcludePathsRelativeToCurrentTree with
    | none => simp [hi, he] at h
    | some exc =>
      simp only [hi, he, Option.some.injEq] at h
      subst h
      simp only []
      cases ff ({ w.1 with IncludePathsRelativeToCurrentTree := inc
                           ExcludePathsRelativeToCurrentTree := exc }, w.2) with
      | none => rfl
      | some r => rfl

theorem WithoutEntryInPaths_shifted_rel (pm : Matcher) (entryName : Str)
    (ff : Walk → Option (Option Err × Walk)) (a b : Walk) (fa fb : LsTreePathFilter)
    (ha : shiftedFilter pm entryName a.1 = some fa)
    (hb : shiftedFilter pm entryName b.1 = some fb)
    (hff : StepRel (SameBytes fa fb) (ff (fa, a.2)) (ff (fb, b.2))) :
    StepRel (SameBytes a.1 b.1) (WithoutEntryInPaths pm entryName ff a)
      (WithoutEntryInPaths pm entryName ff b) := by
  rw [WithoutEntryInPaths_some pm entryName ff a fa ha,
    WithoutEntryInPaths_some pm entryName ff b fb hb]
  cases h1 : ff (fa, a.2) with
  | none =>
    cases h2 : ff (fb, b.2) with
    | none => trivial
    | some v2 => simp [h1, h2, StepRel] at hff
  | some v1 =>
    cases h2 : ff (fb, b.2) with
    | none => simp [h1, h2, StepRel] at hff
    | some v2 =>
      obtain ⟨e1, a1, s1⟩ := v1
      obtain ⟨e2, b1, s2⟩ := v2
      rw [h1, h2] at hff
      obtain ⟨he, hfa, hfb, hs⟩ := hff
      simp only at hfa hfb hs
      subst hfa hfb
      exact ⟨he, (shiftedFilter_restore pm entryName a.1 _ ha).1,
        (shiftedFilter_restore pm entryName b.1 _ hb).1, hs⟩

theorem forEntries_fixed (body : TreeEntry → Walk → Option (Option Err × Walk))
    (l : List TreeEntry) (w : Walk) (h : ∀ x ∈ l, body x w = some (none, w)) :
    forEntries body l w = some (none, w) := by
  induction l with
  | nil => rfl
  | cons x rest ih =>
    unfold forEntries
    rw [h x (List.mem_cons_self _ _)]
    exact ih (fun y hy => h y (List.mem_cons_of_mem _ hy))

theorem checkedEntry_quiet (pm : Matcher) (entry : TreeEntry) (looked : TreeResult)
    (recur : Walk → Option (Option Err × Walk)) (inside : LsTreePathFilter → Bool) (w : Walk)
    (hq : quietEntry pm entry.Name w.1 inside = true)
    (hrec : ∀ f1, shiftedFilter pm entry.Name w.1 = some f1 → inside f1 = true →
      (∃ t, looked = .ok t) ∧ recur (f1, w.2) = some (none, (f1, w.2))) :
    checkedEntry pm entry (descendInto pm entry.Name looked recur) w = some (none, w) := by
  unfold quietEntry at hq
  unfold checkedEntry
  cases hc : CheckEntry pm w.1 entry.Name with
  | none => simp [hc] at hq
  | some r =>
    obtain ⟨v, d⟩ := r
    cases v with
    | false => rfl
    | true =>
      cases d with
      | false => simp [hc] at hq
      | true =>
        simp only [hc] at hq
        cases hs : shiftedFilter pm entry.Name w.1 with
        | none => simp [hs] at hq
        | some f1 =>
          simp only [hs] at hq
          obtain ⟨⟨t, ht⟩, hr⟩ := hrec f1 hs hq
          simp only [Bool.not_true, Bool.false_eq_true, if_false]
          unfold descendInto
          rw [ht]
          simp only []
          rw [WithoutEntryInPaths_some pm entry.Name recur w f1 hs, hr]
          simp only [Option.map_some']
          rw [(shiftedFilter_restore pm entry.Name w.1 f1 hs).1]

theorem lsTreeChecksum_absorbsNothing (pm : Matcher) (valid : PathFilter → Str → Bool)
    (tree : Tree) :
    ∀ (treePath : Str) (w : Walk), tree.absorbsNothing pm valid treePath w.1 = true →
      lsTreeChecksum pm valid tree treePath w = some (none, w) := by
  induction tree using Tree.induction with
  | step entries findEntry subtree submodule ih1 ih2 =>
    intro treePath w hq
    rw [lsTreeChecksum_eq_forEntries]
    rw [Tree.absorbsNothing, List.all_eq_true] at hq
    apply forEntries_fixed
    intro entry hentry
    have he := hq entry hentry
    have hdir : ∀ looked : TreeResult,
        (∀ t, looked = .ok t → ∀ (treePath : Str) (w : Walk),
          t.absorbsNothing pm valid treePath w.1 = true →
          lsTreeChecksum pm valid t treePath w = some (none, w)) →
        quietEntry pm entry.Name w.1 (fun f1 =>
          TreeResult.absorbsNothing pm valid looked (Join [treePath, entry.Name]) f1) = true →
        checkedEntry pm entry (descendInto pm entry.Name looked (fun w1 =>
          lsTreeChecksumIn pm valid looked (Join [treePath, entry.Name]) w1)) w
          = some (none, w) := by
      intro looked ih hqe
      refine checkedEntry_quiet pm entry looked _ _ w hqe ?_
      intro f1 _ hin
      cases hl : looked with
      | error err =>
        rw [hl] at hin
        simp [TreeResult.absorbsNothing] at hin
      | ok t =>
        rw [hl] at hin
        rw [TreeResult.absorbsNothing] at hin
        refine ⟨⟨t, rfl⟩, ?_⟩
        rw [lsTreeChecksumIn_ok]
        exact ih t hl _ (f1, w.2) hin
    unfold entryStep
    cases hm : entry.Mode with
    | Dir =>
      simp only [hm] at he
      exact hdir _ (fun t ht => ih1 entry.Name t ht) he
    | Submodule =>
      simp only [hm] at he
      exact hdir _ (fun t ht => ih2 (Join [treePath, entry.Name]) t ht) he
    | Empty => simp only [hm] at he; simp at he; simp [he]
    | Regular => simp only [hm] at he; simp at he; simp [he]
    | Deprecated => simp only [hm] at he; simp at he; simp [he]
    | Executable => simp only [hm] at he; simp at he; simp [he]
    | Symlink => simp only [hm] at he; simp at he; simp [he]

theorem checkedEntry_sameEntry (pm : Matcher) (entry : TreeEntry) (looked : TreeResult)
    (recur : Walk → Option (Option Err × Walk))
    (same : LsTreePathFilter → LsTreePathFilter → Bool) (inside : LsTreePathFilter → Bool)
    (a b : Walk) (hbytes : a.2 = b.2)
    (hs : sameEntry pm entry.Name b.1 a.1 looked same inside = true)
    (hsame : ∀ f1 fNew1, shiftedFilter pm entry.Name b.1 = some f1 →
      shiftedFilter pm entry.Name a.1 = some fNew1 → same f1 fNew1 = true →
      (∃ t, looked = .ok t) →
      StepRel (SameBytes fNew1 f1) (recur (fNew1, a.2)) (recur (f1, b.2)))
    (hinside : ∀ fNew1, shiftedFilter pm entry.Name a.1 = some fNew1 → inside fNew1 = true →
      (∃ t, looked = .ok t) ∧ recur (fNew1, a.2) = some (none, (fNew1, a.2))) :
    StepRel (SameBytes a.1 b.1)
      (checkedEntry pm entry (descendInto pm entry.Name looked recur) a)
      (checkedEntry pm entry (descendInto pm entry.Name looked recur) b) := by
  have hdescend : CheckEntry pm b.1 entry.Name = some (true, true) →
      CheckEntry pm a.1 entry.Name = some (true, true) →
      StepRel (SameBytes a.1 b.1)
        (checkedEntry pm entry (descendInto pm entry.Name looked recur) a)
        (checkedEntry pm entry (descendInto pm entry.Name looked recur) b) := by
    intro hcb hca
    unfold sameEntry at hs
    simp only [hcb, hca] at hs
    unfold checkedEntry
    simp only [hcb, hca, Bool.not_true, Bool.false_eq_true, if_false]
    unfold descendInto
    cases hl : looked with
    | error err => exact ⟨rfl, rfl, rfl, hbytes⟩
    | ok t =>
      simp only [hl] at hs
      simp only []
      cases hfb : shiftedFilter pm entry.Name b.1 with
      | none =>
        cases hfa : shiftedFilter pm entry.Name a.1 with
        | none =>
          rw [WithoutEntryInPaths_none pm entry.Name recur a hfa,
            WithoutEntryInPaths_none pm entry.Name recur b hfb]
          trivial
        | some fNew1 => simp [hfb, hfa] at hs
      | some f1 =>
        cases hfa : shiftedFilter pm entry.Name a.1 with
        | none => simp [hfb, hfa] at hs
        | some fNew1 =>
          simp only [hfb, hfa] at hs
          exact WithoutEntryInPaths_shifted_rel pm entry.Name recur a b fNew1 f1 hfa hfb
            (hsame f1 fNew1 hfb hfa hs ⟨t, hl⟩)
  have henter : ∀ d, CheckEntry pm b.1 entry.Name = some (false, d) →
      CheckEntry pm a.1 entry.Name = some (true, true) →
      StepRel (SameBytes a.1 b.1)
        (checkedEntry pm entry (descendInto pm entry.Name looked recur) a)
        (checkedEntry pm entry (descendInto pm entry.Name looked recur) b) := by
    intro d hcb hca
    have hq : quietEntry pm entry.Name a.1 inside = true := by
      unfold sameEntry at hs
      unfold quietEntry
      simp only [hca]
      cases d <;> simpa [hcb, hca] using hs
    rw [checkedEntry_quiet pm entry looked recur inside a hq hinside]
    unfold checkedEntry
    simp only [hcb, Bool.not_false, if_true]
    exact ⟨rfl, rfl, rfl, hbytes⟩
  have hequal : CheckEntry pm b.1 entry.Name = CheckEntry pm a.1 entry.Name →
      CheckEntry pm b.1 entry.Name ≠ some (true, true) →
      StepRel (SameBytes a.1 b.1)
        (checkedEntry pm entry (descendInto pm entry.Name looked recur) a)
        (checkedEntry pm entry (descendInto pm entry.Name looked recur) b) := by
    intro heq hne
    unfold checkedEntry
    rw [← heq]
    cases hcb : CheckEntry pm b.1 entry.Name with
    | none => trivial
    | some r =>
      obtain ⟨v, d⟩ := r
      cases v with
      | false => exact ⟨rfl, rfl, rfl, hbytes⟩
      | true =>
        cases d with
        | false => exact ⟨rfl, rfl, rfl, by simp [hbytes]⟩
        | true => exact absurd hcb hne
  cases hcb : CheckEntry pm b.1 entry.Name with
  | none =>
    cases hca : CheckEntry pm a.1 entry.Name with
    | none => exact hequal (hcb.trans hca.symm) (by simp [hcb])
    | some r => simp [sameEntry, hcb, hca] at hs
  | some rb =>
    obtain ⟨vb, db⟩ := rb
    cases hca : CheckEntry pm a.1 entry.Name with
    | none => cases vb <;> cases db <;> simp [sameEntry, hcb, hca] at hs
    | some ra =>
      obtain ⟨va, da⟩ := ra
      cases vb <;> cases db <;> cases va <;> cases da <;>
        first
        | exact hdescend hcb hca
        | exact henter _ hcb hca
        | exact hequal (hcb.trans hca.symm) (by simp [hcb])
        | (exfalso; simp [sameEntry, hcb, hca] at hs)

theorem lsTreeChecksum_sameWalk (pm : Matcher) (valid : PathFilter → Str → Bool)
    (tree : Tree) :
    ∀ (treePath : Str) (a b : Walk), a.2 = b.2 →
      (∀ q ∈ tree.filePaths treePath, valid a.1.toPathFilter q = valid b.1.toPathFilter q) →
      tree.sameWalk pm valid treePath b.1 a.1 = true →
      StepRel (SameBytes a.1 b.1) (lsTreeChecksum pm valid tree treePath a)
        (lsTreeChecksum pm valid tree treePath b) := by
  induction tree using Tree.induction with
  | step entries findEntry subtree submodule ih1 ih2 =>
    intro treePath a b hbytes hvalid hsw
    rw [lsTreeChecksum_eq_forEntries, lsTreeChecksum_eq_forEntries]
    rw [Tree.sameWalk, List.all_eq_true] at hsw
    refine forEntries_rel (SameBytes a.1 b.1) _ _ entries entries ?_ a b ⟨rfl, rfl, hbytes⟩
    refine List.forall₂_same.2 ?_
    intro entry hentry a1 b1 hI
    obtain ⟨ha1, hb1, hbytes1⟩ := hI
    have he := hsw entry hentry
    have hdir : ∀ looked : TreeResult,
        ((entry.Mode = .Dir ∧ looked = subtree entry.Name) ∨
          (entry.Mode = .Submodule ∧ looked = submodule (Join [treePath, entry.Name]))) →
        (∀ t, looked = .ok t → ∀ (treePath : Str) (a b : Walk), a.2 = b.2 →
          (∀ q ∈ t.filePaths treePath, valid a.1.toPathFilter q = valid b.1.toPathFilter q) →
          t.sameWalk pm valid treePath b.1 a.1 = true →
          StepRel (SameBytes a.1 b.1) (lsTreeChecksum pm valid t treePath a)
            (lsTreeChecksum pm valid t treePath b)) →
        sameEntry pm entry.Name b.1 a.1 looked
          (fun f1 fNew1 =>
            TreeResult.sameWalk pm valid looked (Join [treePath, entry.Name]) f1 fNew1)
          (fun fNew1 =>
            TreeResult.absorbsNothing pm valid looked (Join [treePath, entry.Name]) fNew1)
          = true →
        StepRel (SameBytes a.1 b.1)
          (checkedEntry pm entry (descendInto pm entry.Name looked (fun w1 =>
            lsTreeChecksumIn pm valid looked (Join [treePath, entry.Name]) w1)) a1)
          (checkedEntry pm entry (descendInto pm entry.Name looked (fun w1 =>
            lsTreeChecksumIn pm valid looked (Join [treePath, entry.Name]) w1)) b1) := by
      intro looked hmode ih hse
      rw [← ha1, ← hb1] at hse ⊢
      refine checkedEntry_sameEntry pm entry looked _ _ _ a1 b1 hbytes1 hse ?_ ?_
      · intro f1 fNew1 hf1 hfNew1 hsm hlooked
        obtain ⟨t, ht⟩ := hlooked
        simp only [ht, TreeResult.sameWalk] at hsm
        simp only [ht, lsTreeChecksumIn_ok]
        refine ih t ht (Join [treePath, entry.Name]) (fNew1, a1.2) (f1, b1.2) hbytes1 ?_ hsm
        intro q hq
        show valid fNew1.toPathFilter q = valid f1.toPathFilter q
        rw [(shiftedFilter_restore pm entry.Name a1.1 fNew1 hfNew1).2,
          (shiftedFilter_restore pm entry.Name b1.1 f1 hf1).2, ha1, hb1]
        exact hvalid q (mem_filePaths_inside entries findEntry subtree submodule treePath
          entry hentry looked t ht hmode q hq)
      · intro fNew1 _ hin
        cases hl : looked with
        | error err =>
          rw [hl] at hin
          simp [TreeResult.absorbsNothing] at hin
        | ok t =>
          rw [hl] at hin
          simp only [TreeResult.absorbsNothing] at hin
          refine ⟨⟨t, rfl⟩, ?_⟩
          simp only [lsTreeChecksumIn_ok]
          exact lsTreeChecksum_absorbsNothing pm valid t _ (fNew1, a1.2) hin
    by_cases hd : entry.Mode = .Dir
    · unfold entryStep
      simp only [hd] at he ⊢
      exact hdir _ (Or.inl ⟨hd, rfl⟩) (fun t ht => ih1 entry.Name t ht) he
    · by_cases hsm : entry.Mode = .Submodule
      · unfold entryStep
        simp only [hsm] at he ⊢
        exact hdir _ (Or.inr ⟨hsm, rfl⟩)
          (fun t ht => ih2 (Join [treePath, entry.Name]) t ht) he
      · have hv : valid a1.1.toPathFilter (Join [treePath, entry.Name]) =
            valid b1.1.toPathFilter (Join [treePath, entry.Name]) := by
          rw [ha1, hb1]
          exact hvalid _ (mem_filePaths_file entries findEntry subtree submodule treePath
            entry hentry hd hsm)
        have hfile : StepRel (SameBytes a.1 b.1)
            (if valid a1.1.toPathFilter (Join [treePath, entry.Name]) then
              some (none, (a1.1, a1.2 ++ entry.Hash.String)) else some (none, a1))
            (if valid b1.1.toPathFilter (Join [treePath, entry.Name]) then
              some (none, (b1.1, b1.2 ++ entry.Hash.String)) else some (none, b1)) := by
          rw [hv]
          cases valid b1.1.toPathFilter (Join [treePath, entry.Name]) with
          | false => exact ⟨rfl, ha1, hb1, hbytes1⟩
          | true => exact ⟨rfl, ha1, hb1, by simp [hbytes1]⟩
        unfold entryStep
        cases hm : entry.Mode <;> first | exact absurd hm hd | exact absurd hm hsm | exact hfile

/-- C8, as stated, fails: on the scenario tree with `IncludePaths = ["src"]`,
the added exclude pattern `src/zzz` matches no path of the tree, yet it makes
`CheckEntry("src")` ask to go inside `src`, so the hash is fed the ids of the
accepted files of `src` instead of the id of the directory `src`; the bytes
differ whatever `IsFilePathValid` answers. -/
theorem LsTreeChecksum_unmatched_exclude_changes :
    scenarioPaths.all (fun path => PathMatch "src/zzz".toList path == some false) = true ∧
      ∀ valid : PathFilter → Str → Bool,
        LsTreeChecksum PathMatch valid scenarioRepository
            (checksumFilter [] ["src".toList] ([] ++ ["src/zzz".toList]) []) ≠
          LsTreeChecksum PathMatch valid scenarioRepository
            (checksumFilter [] ["src".toList] [] []) := by
  refine ⟨by decide, ?_⟩
  intro valid
  have hbits : ∀ b0 b1 b2 : Bool,
      LsTreeChecksum PathMatch (scenarioValid b0 b1 b2) scenarioRepository
          (checksumFilter [] ["src".toList] ([] ++ ["src/zzz".toList]) []) ≠
        some (.ok (Hash.replicate 2).String) := by
    intro b0 b1 b2 h
    cases b0 <;> cases b1 <;> cases b2 <;>
      exact absurd (Except.ok.inj (Option.some.inj h)) (by decide)
  have hlift := LsTreeChecksum_valid_congr PathMatch valid
    (scenarioValid
      (valid (checksumFilter [] ["src".toList] ([] ++ ["src/zzz".toList]) []).toPathFilter
        "docs/x.md".toList)
      (valid (checksumFilter [] ["src".toList] ([] ++ ["src/zzz".toList]) []).toPathFilter
        "src/a.c".toList)
      (valid (checksumFilter [] ["src".toList] ([] ++ ["src/zzz".toList]) []).toPathFilter
        "src/b.c".toList))
    scenarioRepository (checksumFilter [] ["src".toList] ([] ++ ["src/zzz".toList]) [])
    ⟨Hash.replicate 0, .ok (scenarioTree (Hash.replicate 1) (Hash.replicate 2)
      (Hash.replicate 3) (Hash.replicate 4) (Hash.replicate 5))⟩
    (scenarioTree (Hash.replicate 1) (Hash.replicate 2)
      (Hash.replicate 3) (Hash.replicate 4) (Hash.replicate 5)) rfl
    (by
      intro q hq
      have hpaths : (scenarioTree (Hash.replicate 1) (Hash.replicate 2) (Hash.replicate 3)
          (Hash.replicate 4) (Hash.replicate 5)).filePaths
            (checksumFilter [] ["src".toList] ([] ++ ["src/zzz".toList]) []).toPathFilter.BasePath
          = ["docs/x.md".toList, "src/a.c".toList, "src/b.c".toList] := by decide
      rw [hpaths] at hq
      simp only [List.mem_cons, List.mem_singleton, List.not_mem_nil, or_false] at hq
      rcases hq with rfl | rfl | rfl <;> rfl)
  rw [hlift]
  exact hbits _ _ _

/-- C8, amended: when the filter has at least one glob before the addition,
so that the tree is walked, the commit and the start tree are found, the added
exclude pattern does not change the answer of `IsFilePathValid` on any file
path of the tree, and the walk takes the same way with it (at every directory
or submodule entry that the walk reaches, `CheckEntry` answers the same with
and without the pattern, or the pattern turns a skipped entry into one that is
entered and inside which nothing is written to the hash), the outcome of
`LsTreeChecksum`, and so the bytes fed to the hash, is unchanged. -/
theorem LsTreeChecksum_add_exclude_same_walk (pm : Matcher)
    (valid : PathFilter → Str → Bool) (repository : Repository)
    (basePath : Str) (includePaths excludePaths paths : List Str) (added : Str)
    (commit : Commit) (tree : Tree)
    (hresolve : resolveTree repository
      (checksumFilter basePath includePaths excludePaths paths) = .ok (commit, tree))
    (hwalk : ShouldNotWalkThroughTree
      (checksumFilter basePath includePaths excludePaths paths) = false)
    (hvalid : ∀ q ∈ tree.filePaths basePath,
      valid (checksumFilter basePath includePaths (excludePaths ++ [added]) paths).toPathFilter q
        = valid (checksumFilter basePath includePaths excludePaths paths).toPathFilter q)
    (hsame : tree.sameWalk pm valid basePath
      (checksumFilter basePath includePaths excludePaths paths)
      (checksumFilter basePath includePaths (excludePaths ++ [added]) paths) = true) :
    LsTreeChecksum pm valid repository
        (checksumFilter basePath includePaths (excludePaths ++ [added]) paths) =
      LsTreeChecksum pm valid repository
        (checksumFilter basePath includePaths excludePaths paths) := by
  have hresolveA : resolveTree repository
      (checksumFilter basePath includePaths (excludePaths ++ [added]) paths) =
        .ok (commit, tree) := by
    rw [← hresolve]
    exact resolveTree_congr repository _ _ rfl
  have hwalkA : ShouldNotWalkThroughTree
      (checksumFilter basePath includePaths (excludePaths ++ [added]) paths) = false := by
    simp only [ShouldNotWalkThroughTree, checksumFilter, NewLsTreePathFilter,
      formatGlobs_append, List.length_append, Bool.and_eq_false_imp, beq_iff_eq,
      beq_eq_false_iff_ne, ne_eq] at hwalk ⊢
    intro h
    have := hwalk h
    omega
  unfold LsTreeChecksum
  simp only [hresolve, hresolveA, hwalk, hwalkA]
  exact StepRel_SameBytes_out _ _ _ _
    (lsTreeChecksum_sameWalk pm valid tree basePath
      (checksumFilter basePath includePaths (excludePaths ++ [added]) paths, [])
      (checksumFilter basePath includePaths excludePaths paths, []) rfl hvalid hsame)

/-- On the scenario repository with the include `src/*.c`, whose walk feeds
the ids of `src/a.c` and `src/b.c`: the added exclude `src/zzz` reaches into
the directory `src`, which the walk enters anyway, and the added exclude
`docs/zzz` makes the walk enter the directory `docs`, where no file is
accepted. -/
theorem LsTreeChecksum_add_exclude_same_walk_witness :
    LsTreeChecksum PathMatch IsFilePathValid scenarioRepository
        (checksumFilter [] ["src/*.c".toList] ([] ++ ["src/zzz".toList]) []) =
      LsTreeChecksum PathMatch IsFilePathValid scenarioRepository
        (checksumFilter [] ["src/*.c".toList] [] []) ∧
    LsTreeChecksum PathMatch IsFilePathValid scenarioRepository
        (checksumFilter [] ["src/*.c".toList] ([] ++ ["docs/zzz".toList]) []) =
      LsTreeChecksum PathMatch IsFilePathValid scenarioRepository
        (checksumFilter [] ["src/*.c".toList] [] []) ∧
    LsTreeChecksum PathMatch IsFilePathValid scenarioRepository
        (checksumFilter [] ["src/*.c".toList] [] []) =
      some (.ok ((Hash.replicate 4).String ++ (Hash.replicate 5).String)) :=
  ⟨LsTreeChecksum_add_exclude_same_walk PathMatch IsFilePathValid scenarioRepository
      [] ["src/*.c".toList] [] [] "src/zzz".toList
      ⟨Hash.replicate 0, .ok (scenarioTree (Hash.replicate 1) (Hash.replicate 2)
        (Hash.replicate 3) (Hash.replicate 4) (Hash.replicate 5))⟩
      (scenarioTree (Hash.replicate 1) (Hash.replicate 2)
        (Hash.replicate 3) (Hash.replicate 4) (Hash.replicate 5))
      rfl (by decide) (by decide) (by decide),
    LsTreeChecksum_add_exclude_same_walk PathMatch IsFilePathValid scenarioRepository
      [] ["src/*.c".toList] [] [] "docs/zzz".toList
      ⟨Hash.replicate 0, .ok (scenarioTree (Hash.replicate 1) (Hash.replicate 2)
        (Hash.replicate 3) (Hash.replicate 4) (Hash.replicate 5))⟩
      (scenarioTree (Hash.replicate 1) (Hash.replicate 2)
        (Hash.replicate 3) (Hash.replicate 4) (Hash.replicate 5))
      rfl (by decide) (by decide) (by decide),
    by decide⟩

/-! ## The shortcut of `LsTreeChecksum` -/

theorem hexDigit_mem (n : Nat) (h : n < 16) : hexDigit n ∈ hexDigits := by
  interval_cases n <;> decide

theorem hexEncode_length (bs : List (Fin 256)) : (hexEncode bs).length = 2 * bs.length := by
  induction bs with
  | nil => rfl
  | cons b bs ih => simp [hexEncode, ih]; omega

theorem hexEncode_digits (bs : List (Fin 256)) : ∀ c ∈ hexEncode bs, c ∈ hexDigits := by
  induction bs with
  | nil => simp [hexEncode]
  | cons b bs ih =>
    intro c hc
    simp only [hexEncode, List.mem_cons] at hc
    rcases hc with rfl | rfl | hc
    · exact hexDigit_mem _ (by have := b.isLt; omega)
    · exact hexDigit_mem _ (by omega)
    · exact ih c hc

theorem formatGlobs_nil : formatGlobs [] = [] := rfl

/-- The shortcut of `LsTreeChecksum`: when its lookups succeed, `commit` being
the commit that `HEAD` of the repository resolves to, and the include and
exclude globs are both empty after `formatGlobs`, the hash is fed exactly
`commit.Hash.String()`, which is forty hexadecimal digits. -/
theorem LsTreeChecksum_shortcut (pm : Matcher)
    (IsFilePathValid : PathFilter → Str → Bool) (repository : Repository)
    (basePath : Str) (includePaths excludePaths paths : List Str)
    (commit : Commit) (tree : Tree)
    (hresolve : resolveTree repository
      (checksumFilter basePath includePaths excludePaths paths) = .ok (commit, tree))
    (hinc : formatGlobs (includePaths ++ paths) = [])
    (hexc : formatGlobs excludePaths = []) :
    LsTreeChecksum pm IsFilePathValid repository
        (checksumFilter basePath includePaths excludePaths paths)
      = some (.ok commit.Hash.String) ∧
      commit.Hash.String.length = 40 ∧ ∀ c ∈ commit.Hash.String, c ∈ hexDigits := by
  refine ⟨?_, ?_, hexEncode_digits _⟩
  · unfold LsTreeChecksum
    simp only [hresolve]
    simp [ShouldNotWalkThroughTree, checksumFilter, NewLsTreePathFilter, hinc, hexc]
  · simp [Hash.String, hexEncode_length, commit.Hash.size]

/-- C7: `checksumWithLsTree` is asked for the commit `0101…`, the parent of the
commit `0000…` to which `HEAD` of the repository in `/repo/.git` resolves, with
no globs and no path patterns.  The requested commit is found
and the worktree is prepared for it, yet the hash is fed the id of the commit
of `HEAD`, not the id of the requested commit: `LsTreeChecksum` is not given
the requested commit and reads `repository.Head()`.  When the requested commit
is the one of `HEAD`, its id is what the hash is fed. -/
theorem checksumWithLsTree_absorbs_head_id :
    checksumWithLsTree openHistory replicateHash (withWorkTreeAt (linkWorkTree []))
        openHistoryStorage PathMatch IsFilePathValid
        "/repo".toList "/repo/.git".toList "/cache".toList
        { BasePath := [], Paths := [], IncludePaths := [], ExcludePaths := [],
          Commit := (Hash.replicate 1).String }
      = some (.ok { NoMatchPaths := [], Hash := (Hash.replicate 0).String }) ∧
    (Hash.replicate 0).String ≠ (Hash.replicate 1).String ∧
    checksumWithLsTree openHistory replicateHash (withWorkTreeAt (linkWorkTree []))
        openHistoryStorage PathMatch IsFilePathValid
        "/repo".toList "/repo/.git".toList "/cache".toList
        { BasePath := [], Paths := [], IncludePaths := [], ExcludePaths := [],
          Commit := (Hash.replicate 0).String }
      = some (.ok { NoMatchPaths := [], Hash := (Hash.replicate 0).String }) :=
  ⟨rfl, by decide, rfl⟩

/-- The shortcut of `LsTreeChecksum` after a base path that names a submodule
entry: the submodule's repository and tree are looked up, and the error is
returned if that fails; otherwise the hash is fed the id string of the commit
of `HEAD` of the repository that `LsTreeChecksum` was called with. -/
theorem LsTreeChecksum_shortcut_after_submodule (pm : Matcher)
    (IsFilePathValid : PathFilter → Str → Bool) (repository : Repository)
    (basePath : Str) (ref : Hash) (commit : Commit) (tree : Tree) (entry : TreeEntry)
    (hhead : repository.Head = .ok ref)
    (hcommit : repository.CommitObject ref = .ok commit)
    (htree : commit.Tree = .ok tree)
    (hbase : basePath ≠ [])
    (hentry : tree.FindEntry basePath = .ok entry)
    (hmode : entry.Mode = .Submodule) :
    LsTreeChecksum pm IsFilePathValid repository (NewLsTreePathFilter basePath [] []) =
      match tree.submodule basePath with
      | .error err => some (.error err)
      | .ok _ => some (.ok commit.Hash.String) := by
  unfold LsTreeChecksum resolveTree
  simp only [hhead, hcommit, htree, NewLsTreePathFilter, formatGlobs_nil, ToSlash, ne_eq, hbase,
    not_false_eq_true, if_true, hentry, hmode]
  cases tree.submodule basePath with
  | error err => rfl
  | ok t => rfl

/-- C10: `BasePath = "vendor/lib"` names a submodule pinned to the commit
`0101…` in a repository whose `HEAD` is the commit `0000…`, and no globs are
given.  `LsTreeChecksum` switches to the tree of the submodule, yet the hash is
fed the id of the outer commit, not the id of the pinned commit, which is what
the walk of the submodule's own repository without globs feeds. -/
theorem LsTreeChecksum_submodule_basePath_outer_id :
    resolveTree vendorRepository (NewLsTreePathFilter "vendor/lib".toList [] [])
      = .ok (⟨Hash.replicate 0, .ok vendorTree⟩, libTree) ∧
    LsTreeChecksum PathMatch IsFilePathValid vendorRepository
        (NewLsTreePathFilter "vendor/lib".toList [] [])
      = some (.ok (Hash.replicate 0).String) ∧
    LsTreeChecksum PathMatch IsFilePathValid libRepository (NewLsTreePathFilter [] [] [])
      = some (.ok (Hash.replicate 1).String) ∧
    (Hash.replicate 0).String ≠ (Hash.replicate 1).String :=
  ⟨rfl, rfl, rfl, by decide⟩

/-! ## `CheckEntry` and the walker -/

theorem checkIncludes_admits (pm : Matcher) (entryName : Str) (globs : List Str)
    (st r : Bool × Bool) (hst : st.2 = true → st.1 = true)
    (h : checkIncludes pm entryName globs st = some r) : r.2 = true → r.1 = true := by
  induction globs generalizing st with
  | nil =>
    simp only [checkIncludes, Option.some.injEq] at h
    subst h
    exact hst
  | cons g rest ih =>
    obtain ⟨v, d⟩ := st
    unfold checkIncludes at h
    cases hm : pm (firstPart g) entryName with
    | none => simp [hm] at h
    | some m =>
      simp only [hm] at h
      split_ifs at h
      · simp only [Option.some.injEq] at h
        subst h
        exact fun _ => rfl
      · exact ih (true, d) (fun _ => rfl) h
      · exact ih (v, d) hst h

theorem checkExcludes_admits (pm : Matcher) (entryName : Str) (globs : List Str)
    (st r : Bool × Bool) (hst : st.2 = true → st.1 = true)
    (h : checkExcludes pm entryName globs st = some r) : r.2 = true → r.1 = true := by
  induction globs generalizing st with
  | nil =>
    simp only [checkExcludes, Option.some.injEq] at h
    subst h
    exact hst
  | cons g rest ih =>
    obtain ⟨v, d⟩ := st
    unfold checkExcludes at h
    cases hm : pm (firstPart g) entryName with
    | none => simp [hm] at h
    | some m =>
      simp only [hm] at h
      split_ifs at h
      · exact ih (true, true) (fun _ => rfl) h
      · simp only [Option.some.injEq] at h
        subst h
        intro hd
        cases hd
      · exact ih (v, d) hst h

/-- C15: for every matcher, filter state and entry name, `CheckEntry` does not
return `(isValidEntry, shouldGoInsideEntry) = (false, true)`. -/
theorem CheckEntry_never_inside_unadmitted (pm : Matcher) (f : LsTreePathFilter)
    (entryName : Str) : CheckEntry pm f entryName ≠ some (false, true) := by
  intro h
  unfold CheckEntry at h
  cases hi : checkIncludes pm entryName f.IncludePathsRelativeToCurrentTree (false, false) with
  | none => simp [hi] at h
  | some st =>
    simp only [hi] at h
    have h1 := checkIncludes_admits pm entryName _ (false, false) st
      (fun hd => by cases hd) hi
    have h2 := checkExcludes_admits pm entryName _ st (false, true) h1 h
    exact absurd (h2 rfl) (by decide)

/-! ## The head branch name -/

theorem splitLoop_skip (sep : Str) (pre rest cur : Str) :
    splitLoop sep pre.length cur (pre ++ rest) = splitLoop sep 0 cur rest := by
  induction pre with
  | nil => rfl
  | cons c cs ih => simpa [splitLoop] using ih

theorem splitLoop_no_occurrence (sep : Str) (s cur : Str)
    (hno : ∀ t ∈ s.tails, HasPrefix t sep = false) :
    splitLoop sep 0 cur s = [cur.reverse ++ s] := by
  induction s generalizing cur with
  | nil => simp [splitLoop]
  | cons c cs ih =>
    have hhead : HasPrefix (c :: cs) sep = false := hno _ (by simp)
    have htail : ∀ t ∈ cs.tails, HasPrefix t sep = false :=
      fun t ht => hno t (by simp [List.tails, ht])
    simp [splitLoop, hhead, ih (c :: cur) htail]

theorem HasPrefix_append (pre rest : Str) : HasPrefix (pre ++ rest) pre = true := by
  induction pre with
  | nil => cases rest <;> rfl
  | cons c cs ih => simp [HasPrefix, ih]

theorem getHeadBranchName_of_plain_name (repoPath b : Str)
    (hno : ∀ t ∈ b.tails, HasPrefix t refHeadPrefix = false) :
    getHeadBranchName (openAtHead (refHeadPrefix ++ b)) repoPath = some (.ok b) := by
  have hsplit : SplitOn (refHeadPrefix ++ b) refHeadPrefix = [[], b] := by
    have hskip := splitLoop_skip refHeadPrefix "efs/heads/".toList b []
    have hrest := splitLoop_no_occurrence refHeadPrefix b [] hno
    have hpre : HasPrefix ('r' :: ("efs/heads/".toList ++ b)) refHeadPrefix = true :=
      HasPrefix_append refHeadPrefix b
    have hlen : refHeadPrefix.length - 1 = "efs/heads/".toList.length := by decide
    have hne : refHeadPrefix ≠ [] := by decide
    show SplitOn ('r' :: ("efs/heads/".toList ++ b)) refHeadPrefix = [[], b]
    unfold SplitOn
    rw [if_neg hne]
    unfold splitLoop
    rw [if_pos hpre, hlen, hskip, hrest]
    rfl
  have hbranch : IsBranch (refHeadPrefix ++ b) = true := HasPrefix_append refHeadPrefix b
  simp [getHeadBranchName, getReferenceForRepo, openAtHead, hbranch, hsplit]

theorem getHeadBranchName_of_other_reference (repoPath name : Str)
    (hname : IsBranch name = false) :
    getHeadBranchName (openAtHead name) repoPath = some (.error errNotABranch) := by
  simp [getHeadBranchName, getReferenceForRepo, openAtHead, hname]

/-- C13: `getHeadBranchName` takes element 1 of
`strings.Split(name, "refs/heads/")`, which cuts at every occurrence of the
separator: for `HEAD` at `refs/heads/foo/refs/heads/bar` it returns `foo/`,
not the branch name `foo/refs/heads/bar`.  For `refs/heads/main` it returns
`main`, and for the reference `HEAD` of a detached head it fails with
`errNotABranch`. -/
theorem getHeadBranchName_cuts_inside_name :
    getHeadBranchName (openAtHead "refs/heads/foo/refs/heads/bar".toList) "/repo".toList
        = some (.ok "foo/".toList) ∧
      getHeadBranchName (openAtHead "refs/heads/main".toList) "/repo".toList
        = some (.ok "main".toList) ∧
      getHeadBranchName (openAtHead "HEAD".toList) "/repo".toList
        = some (.error errNotABranch) :=
  ⟨rfl, rfl, rfl⟩

/-! ## The search of a commit by its message -/

theorem forEachCommit_eq (Match : Str → Bool) (commits : List (Option LogCommit))
    (ending : Option Err) :
    forEachCommit Match commits ending none =
      (if (firstMatching Match commits).isSome then none else ending,
        firstMatching Match commits) := by
  induction commits with
  | nil => simp [forEachCommit, firstMatching]
  | cons c rest ih =>
    cases c with
    | none =>
      rw [forEachCommit, ih]
      simp [firstMatching, List.find?_cons]
    | some commit =>
      by_cases hm : Match commit.Message = true
      · simp [forEachCommit, firstMatching, List.find?_cons, hm]
      · rw [forEachCommit]
        simp only [hm]
        rw [if_neg (by simp), ih]
        simp [firstMatching, List.find?_cons, hm]

/-- C14: when the repository opens, the head id parses, the head commit is
found and the expression compiles, and the iteration ends with `io.EOF` or
`plumbing.ErrObjectNotFound` or some commit matches, `findCommitIdByMessage`
returns, with no error, the id of the first commit the iterator yields whose
message matches, and the empty string when none matches. -/
theorem findCommitIdByMessage_first_match (PlainOpen : Str → Except Err LogRepository)
    (newHash : Str → Except Err Hash) (Compile : Str → Except Err (Str → Bool))
    (repoPath regex headCommit : Str) (repository : LogRepository) (headHash : Hash)
    (commitObj : LogCommit) (Match : Str → Bool)
    (hopen : PlainOpen repoPath = .ok repository)
    (hhash : newHash headCommit = .ok headHash)
    (hcommit : repository.CommitObject headHash = .ok commitObj)
    (hregex : Compile regex = .ok Match)
    (hend : (repository.NewCommitIterBSF commitObj).ending = none ∨
      (repository.NewCommitIterBSF commitObj).ending = some ErrObjectNotFound ∨
      (firstMatching Match (repository.NewCommitIterBSF commitObj).commits).isSome = true) :
    findCommitIdByMessage PlainOpen newHash Compile repoPath regex headCommit =
      .ok (foundId (firstMatching Match (repository.NewCommitIterBSF commitObj).commits)) := by
  unfold findCommitIdByMessage
  simp only [hopen, hhash, hcommit, hregex, forEachCommit_eq]
  cases hf : firstMatching Match (repository.NewCommitIterBSF commitObj).commits with
  | some c => simp [foundId]
  | none =>
    rw [hf] at hend
    rcases hend with h | h | h
    · simp [h, foundId]
    · simp [h, foundId]
    · simp at h

/-- The search for `^Fix: .*` in the history `Add X`, `Fix: Y`, `Fix: Z`. -/
theorem findCommitIdByMessage_first_match_witness :
    findCommitIdByMessage (fun _ => .ok fixHistory) replicateHash regexpCompile
        "/repo".toList "^Fix: .*".toList (Hash.replicate 1).String
      = .ok (Hash.replicate 2).String :=
  (findCommitIdByMessage_first_match (fun _ => .ok fixHistory) replicateHash regexpCompile
    "/repo".toList "^Fix: .*".toList (Hash.replicate 1).String fixHistory (Hash.replicate 1)
    ⟨Hash.replicate 1, "Add X\n".toList⟩
    (fun text => matchHere (regexItems "Fix: .*".toList) text) rfl rfl rfl rfl
    (Or.inl rfl)).trans rfl

/-! ## The worktree engine -/

theorem collectLoop_eq (wt : WorkTree) (workTreeDir basePath : Str) (files : Str → List Str)
    (patterns noMatchPaths paths : List Str)
    (hfiles : ∀ p ∈ patterns,
      getFilesByPattern wt workTreeDir (Join [basePath, p]) = .ok (files p)) :
    collectLoop wt workTreeDir basePath patterns noMatchPaths paths =
      .ok (noMatchPaths ++ patterns.filter (fun p => (files p).isEmpty),
        paths ++ patterns.flatMap files) := by
  induction patterns generalizing noMatchPaths paths with
  | nil => simp [collectLoop]
  | cons p rest ih =>
    have hp := hfiles p (List.mem_cons_self _ _)
    have hrest := fun q hq => hfiles q (List.mem_cons_of_mem _ hq)
    rw [collectLoop]
    simp only [hp]
    rw [ih _ _ hrest]
    cases hf : files p with
    | nil => simp [List.filter_cons, hf]
    | cons x xs => simp [List.filter_cons, hf]

theorem count_filter_isEmpty (files : Str → List Str) (patterns : List Str) (p : Str) :
    (patterns.filter (fun q => (files q).isEmpty)).count p =
      if (files p).isEmpty then patterns.count p else 0 := by
  by_cases hp : (files p).isEmpty = true
  · rw [if_pos hp]
    exact List.count_filter hp
  · rw [if_neg hp]
    exact List.count_eq_zero.2 (fun hmem => hp (List.mem_filter.1 hmem).2)

theorem hashLoop_symlink (wt : WorkTree) (valid : PathFilter → Str → Bool)
    (workTreeDir : Str) (pathFilter : PathFilter) (path h : Str) (stat : OsFileMode)
    (linkname : Str)
    (hbase : Base path ≠ ".git".toList) (hvalid : valid pathFilter path = true)
    (hstat : wt.Lstat (Join [workTreeDir, path]) = .ok stat)
    (hreg : IsRegular stat = false) (hlink : isSymlink stat = true)
    (hread : wt.Readlink (Join [workTreeDir, path]) = .ok linkname) :
    hashLoop wt valid workTreeDir pathFilter [path] h =
      .ok (h ++ path ++ formatOctal stat ++ linkname) := by
  rw [hashLoop, if_neg hbase]
  simp only [hvalid, Bool.not_true, Bool.false_eq_true, if_false, hstat, hreg, hlink, if_true,
    hread, hashLoop]

theorem walkLoop_ignores_links (baseDir : Str) (stat : OsFileMode)
    (visits : List (Str × Except Err OsFileMode)) (paths : List Str)
    (hdir : isSymlink stat = false)
    (hvisits : ∀ v ∈ visits, ∃ m, v.2 = .ok m ∧ IsRegular m = false) :
    walkLoop baseDir stat visits paths = .ok paths := by
  induction visits with
  | nil => rfl
  | cons v rest ih =>
    obtain ⟨fullWalkPath, info⟩ := v
    obtain ⟨m, hm, hreg⟩ := hvisits _ (List.mem_cons_self _ _)
    simp only at hm
    subst hm
    rw [walkLoop]
    simp only [hreg, hdir, Bool.or_self, Bool.false_eq_true, if_false]
    exact ih (fun v hv => hvisits v (List.mem_cons_of_mem _ hv))

/-- C11, as stated, fails: a pattern that occurs twice in `opts.Paths` and
matches no file is appended to `NoMatchPaths` twice. -/
theorem checksum_NoMatchPaths_repeats :
    checksumAt (linkWorkTree "a".toList) ["nothing".toList, "nothing".toList]
        = .ok ⟨["nothing".toList, "nothing".toList], []⟩ ∧
      getFilesByPattern (linkWorkTree "a".toList) "/w".toList (Join [[], "nothing".toList])
        = .ok [] ∧
      ["nothing".toList, "nothing".toList].count "nothing".toList = 2 := by
  decide

/-- C11, amended: when `checksum` reaches the worktree and neither the
expansion of a pattern nor the hashing fails, `NoMatchPaths` is the list of
the patterns of `opts.Paths` whose expansion `getFilesByPattern(workTreeDir,
join(BasePath, pattern))` is empty, in the order of `opts.Paths`: such a
pattern appears as often as it occurs in `opts.Paths`, and no other pattern
appears. -/
theorem checksum_NoMatchPaths (PlainOpen : Str → Except Err ChecksumRepository)
    (newHash : Str → Except Err Hash)
    (WithWorkTree : Str → Str → Str → Bool → Except Err (Str × WorkTree))
    (valid : PathFilter → Str → Bool)
    (repoPath gitDir workTreeCacheDir : Str) (opts : ChecksumOptions)
    (repository : ChecksumRepository) (commitHash : Hash) (commit : Except Err Unit)
    (hasSubmodules : Bool) (workTreeDir : Str) (wt : WorkTree)
    (files : Str → List Str) (h : Str)
    (hopen : PlainOpen repoPath = .ok repository)
    (hhash : newHash opts.Commit = .ok commitHash)
    (hcommit : repository.CommitObject commitHash = .ok commit)
    (hsub : HasSubmodulesInCommit commit = .ok hasSubmodules)
    (hwt : WithWorkTree gitDir workTreeCacheDir opts.Commit hasSubmodules = .ok (workTreeDir, wt))
    (hfiles : ∀ p ∈ opts.Paths,
      getFilesByPattern wt workTreeDir (Join [opts.BasePath, p]) = .ok (files p))
    (hsum : hashLoop wt valid workTreeDir ⟨opts.BasePath, opts.IncludePaths, opts.ExcludePaths⟩
      (sortStrings (opts.Paths.flatMap files)) [] = .ok h) :
    checksum PlainOpen newHash WithWorkTree valid repoPath gitDir workTreeCacheDir opts =
        .ok ⟨opts.Paths.filter (fun p => (files p).isEmpty), h⟩ ∧
      ∀ p, (opts.Paths.filter (fun p => (files p).isEmpty)).count p =
        if (files p).isEmpty then opts.Paths.count p else 0 := by
  refine ⟨?_, count_filter_isEmpty files opts.Paths⟩
  unfold checksum
  simp only [hopen, hhash, hcommit, hsub, hwt]
  unfold checksumInWorkTree
  rw [collectLoop_eq wt workTreeDir opts.BasePath files opts.Paths [] [] hfiles]
  simp only [List.nil_append, hsum]

/-- The patterns `d/link`, `zz`, `d`, `yy` on the worktree with `d/f` and
`d/link`: `zz` and `yy` match nothing. -/
theorem checksum_NoMatchPaths_witness :
    checksumAt (linkWorkTree "a".toList)
        ["d/link".toList, "zz".toList, "d".toList, "yy".toList]
      = .ok ⟨["zz".toList, "yy".toList], "d/f644x\nd/link1000000777a".toList⟩ :=
  ((checksum_NoMatchPaths openPlain replicateHash (withWorkTreeAt (linkWorkTree "a".toList))
    (fun _ _ => true) "/repo".toList "/repo/.git".toList "/cache".toList
    (pathsOnly ["d/link".toList, "zz".toList, "d".toList, "yy".toList])
    ⟨fun _ => .ok (.error ErrFileNotFound)⟩ (Hash.replicate 1) (.error ErrFileNotFound) false
    "/w".toList (linkWorkTree "a".toList)
    (fun p => if p = "d/link".toList then ["d/link".toList]
      else if p = "d".toList then ["d/f".toList] else [])
    "d/f644x\nd/link1000000777a".toList rfl rfl rfl rfl rfl (by decide) (by decide)).1).trans
    (by decide)

/-- C12: the callback of `filepath.Walk` in `getFilesByPattern` tests the
mode of the matched directory, not of the visited file, for a symlink, so a
symlink inside a matched directory is not collected.  On the worktree with the
directory `d`, the file `d/f` and the symlink `d/link`, the pattern `d` makes
`checksum` absorb `d/f`, its mode and content only, whatever the target of the
link is; the pattern `d/link` makes it absorb the path, the mode and the
target of the link. -/
theorem checksum_skips_symlink_in_directory :
    (∀ target : Str,
      checksumAt (linkWorkTree target) ["d".toList] = .ok ⟨[], "d/f644x\n".toList⟩) ∧
      (linkWorkTree "a".toList).Walk "/w/d".toList =
        [("/w/d".toList, .ok (ModeDir + 493)), ("/w/d/f".toList, .ok 420),
          ("/w/d/link".toList, .ok (ModeSymlink + 511))] ∧
      isSymlink (ModeSymlink + 511) = true ∧
      ∀ target : Str,
        checksumAt (linkWorkTree target) ["d/link".toList]
          = .ok ⟨[], "d/link1000000777".toList ++ target⟩ := by
  exact ⟨fun _ => rfl, by decide, by decide, fun _ => rfl⟩

end GitRepo
